import Mathlib

/-!
Verification development for the drug_query_bot repository.

The definitions below are a shallow embedding of the query-understanding and
result-aggregation core of the repository:

  * `utils/fuzzy.py`  — name normalization, fuzzy matching, candidate extraction
  * `utils/intent.py` — filter extraction/validation and the LLM-fallback gate
  * `utils/llm.py`    — validation of the LLM intent response
  * `utils/db.py`     — row aggregation, lookup, filtering, suggestions
  * `app.py`          — the staged drug-name resolution of `process_query`

Python strings are modelled as Lean `String`, Python `None` as `Option.none`,
Python dicts as insertion-ordered association lists with insert-or-update
semantics, and fallible code as `Except`.  The external rapidfuzz scorer
(`fuzz.token_sort_ratio`) is modelled as an abstract score function passed as a
parameter; everything else is translated directly from the source.
-/

namespace DrugBot

/-- Python `\s` (ASCII whitespace as used by `str.split` / `re` on these inputs). -/
def pyIsSpace (c : Char) : Bool :=
  c = ' ' || c = '\t' || c = '\n' || c = '\r' || c = '\x0b' || c = '\x0c'

/-- Python `str.lower` restricted to the character set this repository handles. -/
def pyLower (s : String) : String :=
  String.mk (s.data.map Char.toLower)

/-- Python `\w` word characters (ASCII letters, digits, underscore). -/
def isWordChar (c : Char) : Bool :=
  c.isAlphanum || c = '_'

/-! ## Ordinal string comparison

Models Python `sorted` on strings and the storage collaborator's
`ORDER BY drug_name`, as code-point lexicographic order. -/

/-- Code-point lexicographic `≤` on character lists. -/
def leChars : List Char → List Char → Bool
  | [], _ => true
  | _ :: _, [] => false
  | a :: as, b :: bs => if a = b then leChars as bs else decide (a < b)

/-- Code-point lexicographic `≤` on strings. -/
def strLe (a b : String) : Bool :=
  leChars a.data b.data

theorem leChars_total (a b : List Char) : leChars a b = true ∨ leChars b a = true := by
  induction a generalizing b with
  | nil => left; rfl
  | cons x xs ih =>
    cases b with
    | nil => right; rfl
    | cons y ys =>
      by_cases hxy : x = y
      · subst hxy
        rcases ih ys with h | h
        · left; simp [leChars, h]
        · right; simp [leChars, h]
      · rcases lt_trichotomy x y with h | h | h
        · left; simp [leChars, hxy, h]
        · exact absurd h hxy
        · right
          have hyx : y ≠ x := fun e => hxy e.symm
          simp [leChars, hyx, h, not_lt_of_gt h]

theorem leChars_trans (a b c : List Char) (hab : leChars a b = true)
    (hbc : leChars b c = true) : leChars a c = true := by
  induction a generalizing b c with
  | nil => rfl
  | cons x xs ih =>
    cases b with
    | nil => simp [leChars] at hab
    | cons y ys =>
      cases c with
      | nil => simp [leChars] at hbc
      | cons z zs =>
        by_cases hxy : x = y <;> by_cases hyz : y = z
        · subst hxy; subst hyz
          simp [leChars] at hab hbc ⊢
          exact ih ys zs hab hbc
        · subst hxy
          simp [leChars, hyz] at hbc ⊢
          simp [hyz, hbc]
        · subst hyz
          simp [leChars, hxy] at hab ⊢
          simp [hxy, hab]
        · simp [leChars, hxy, hyz] at hab hbc
          have hxz : x < z := lt_trans hab hbc
          have : x ≠ z := ne_of_lt hxz
          simp [leChars, this, hxz]

theorem strLe_total (a b : String) : strLe a b = true ∨ strLe b a = true :=
  leChars_total a.data b.data

theorem strLe_trans (a b c : String) (hab : strLe a b = true) (hbc : strLe b c = true) :
    strLe a c = true :=
  leChars_trans a.data b.data c.data hab hbc

/-! ## Python dict model

Insertion-ordered association lists with insert-or-update semantics: setting an
existing key updates its value in place (keeping the key's position), setting a
new key appends it.  This is exactly CPython's dict behaviour, which the
repository relies on for filter sets and for grouping rows by drug name. -/

/-- JSON-ish values stored in the repository's loosely typed dicts. -/
inductive JVal where
  | str (s : String)
  | boolv (b : Bool)
  | num (n : Nat)
  | null
  deriving DecidableEq, Repr

/-- Python truthiness of a `JVal` (`None`, `""` and `False` are falsy). -/
def JVal.truthy : JVal → Bool
  | .str s => s ≠ ""
  | .boolv b => b
  | .num n => n ≠ 0
  | .null => false

/-- `d.get(k)`: first (unique) binding of `k`, if present. -/
def dget {K V : Type} [DecidableEq K] (m : List (K × V)) (k : K) : Option V :=
  match m with
  | [] => none
  | (k', v) :: rest => if k' = k then some v else dget rest k

/-- `d[k] = v`: update in place if `k` is present, else append. -/
def dset {K V : Type} [DecidableEq K] (m : List (K × V)) (k : K) (v : V) :
    List (K × V) :=
  match m with
  | [] => [(k, v)]
  | (k', v') :: rest =>
      if k' = k then (k', v) :: rest else (k', v') :: dset rest k v

/-- `a.update(b)`: set every binding of `b` into `a`, in order. -/
def dupdate {K V : Type} [DecidableEq K] (a b : List (K × V)) : List (K × V) :=
  b.foldl (fun acc p => dset acc p.1 p.2) a

/-- A Python filter dict as used throughout `utils/intent.py` and `utils/db.py`. -/
abbrev Filters := List (String × JVal)

/-- `filters.get(k)` used as a condition: present and truthy. -/
def dgetTruthy (m : Filters) (k : String) : Bool :=
  match dget m k with
  | some v => v.truthy
  | none => false

theorem dget_dset_self {K V : Type} [DecidableEq K] (m : List (K × V)) (k : K) (v : V) :
    dget (dset m k v) k = some v := by
  induction m with
  | nil => simp [dget, dset]
  | cons p rest ih =>
    obtain ⟨k', v'⟩ := p
    by_cases h : k' = k
    · subst h; simp [dget, dset]
    · simp [dget, dset, h, ih]

theorem dget_dset_ne {K V : Type} [DecidableEq K] (m : List (K × V)) (k k' : K) (v : V)
    (h : k ≠ k') : dget (dset m k v) k' = dget m k' := by
  induction m with
  | nil => simp [dget, dset, h]
  | cons p rest ih =>
    obtain ⟨k0, v0⟩ := p
    by_cases h0 : k0 = k
    · subst h0; simp [dget, dset, h]
    · by_cases h1 : k0 = k'
      · subst h1; simp [dget, dset, h0]
      · simp [dget, dset, h0, h1, ih]

/-! ## `utils/fuzzy.py` -/

/-- Collapse runs of spaces to a single space (`re.sub(r'\s+', ' ', s)` after
each whitespace character has been mapped to `' '`). -/
def squeezeSpaces : List Char → List Char
  | [] => []
  | [c] => [c]
  | a :: b :: rest =>
      if a = ' ' && b = ' ' then squeezeSpaces (b :: rest)
      else a :: squeezeSpaces (b :: rest)

/-- Python `str.strip()`. -/
def pyStrip (cs : List Char) : List Char :=
  ((cs.dropWhile pyIsSpace).reverse.dropWhile pyIsSpace).reverse

/--
`normalize_drug_name` (`utils/fuzzy.py`): lowercase, drop `™`/`®`, collapse
internal whitespace runs, strip.  `normalize_drug_name("") = ""`.
-/
def normalize_drug_name (name : String) : String :=
  if name = "" then ""
  else
    let lowered := (pyLower name).data
    let noTm := lowered.filter (fun c => c ≠ '™' && c ≠ '®')
    let collapsed := squeezeSpaces (noTm.map (fun c => if pyIsSpace c then ' ' else c))
    String.mk (pyStrip collapsed)

/--
`rapidfuzz.process.extractOne(q, keys, scorer)`: the best-scoring key; on equal
scores the earliest key wins (rapidfuzz only replaces the running best on a
strictly greater score).  Returns `none` exactly on an empty key list.  The
scorer is the abstract model of `fuzz.token_sort_ratio`.
-/
def extractOne (scorer : String → String → Nat) (q : String) :
    List String → Option (String × Nat)
  | [] => none
  | k :: ks =>
      some (ks.foldl
        (fun best cand =>
          if scorer q cand > best.2 then (cand, scorer q cand) else best)
        (k, scorer q k))

/-- The dict comprehension
`{normalize_drug_name(name): name for name in drug_names}`: keys in
first-occurrence order, later entries overwriting earlier ones. -/
def normDict (drug_names : List String) : List (String × String) :=
  drug_names.foldl (fun m name => dset m (normalize_drug_name name) name) []

/--
`fuzzy_match_drug_name` (`utils/fuzzy.py`): empty query or empty candidate list
gives `(none, 0)`; the dict comprehension maps each normalized form to the
*last* candidate bearing it (later entries overwrite earlier ones) while keys
keep first-occurrence order; an exact normalized hit returns confidence 100;
otherwise `extractOne` runs over the normalized keys and the result is kept iff
its score reaches `threshold`.
-/
def fuzzy_match_drug_name (scorer : String → String → Nat) (query : String)
    (drug_names : List String) (threshold : Nat) : Option String × Nat :=
  if query = "" || drug_names.isEmpty then (none, 0)
  else
    let nq := normalize_drug_name query
    let normalized := normDict drug_names
    match dget normalized nq with
    | some original => (some original, 100)
    | none =>
        match extractOne scorer nq (normalized.map (·.1)) with
        | some (key, score) =>
            if score ≥ threshold then (dget normalized key, score) else (none, 0)
        | none => (none, 0)

/-- Python `str.split()` with no argument: split on whitespace runs, no empties. -/
def pySplit (s : String) : List String :=
  ((s.data.splitOnP pyIsSpace).filter (fun w => ¬ w.isEmpty)).map String.mk

/--
The candidate window list of `extract_drug_name_from_query`: for each word
index, the word itself, then the 2-word span, then the 3-word span.
-/
def buildCandidates : List String → List String
  | [] => []
  | [w] => [w]
  | [w1, w2] => [w1, w1 ++ " " ++ w2, w2]
  | w1 :: w2 :: w3 :: rest =>
      w1 :: (w1 ++ " " ++ w2) :: (w1 ++ " " ++ w2 ++ " " ++ w3) ::
        buildCandidates (w2 :: w3 :: rest)

/-- The "last resort" tail of `extract_drug_name_from_query`: retry the whole
query at threshold 50 (`if matched_name:` is a Python truthiness test). -/
def wholeQueryRetry (scorer : String → String → Nat) (query : String)
    (drug_names : List String) : Option String × Nat × String :=
  let r := fuzzy_match_drug_name scorer query drug_names 50
  match r.1 with
  | some name =>
      if name ≠ "" then (some name, r.2, "full_query_match") else (none, 0, "no_match")
  | none => (none, 0, "no_match")

/--
`extract_drug_name_from_query` (`utils/fuzzy.py`): empty query short-circuits;
every window is scored through `fuzzy_match_drug_name` at threshold 60 keeping
the strictly best; on failure the whole query is retried at threshold 50.
-/
def extract_drug_name_from_query (scorer : String → String → Nat) (query : String)
    (drug_names : List String) : Option String × Nat × String :=
  if query = "" then (none, 0, "empty_query")
  else
    let candidates := buildCandidates (pySplit query)
    let best := candidates.foldl
      (fun best cand =>
        let r := fuzzy_match_drug_name scorer cand drug_names 60
        if r.2 > best.2 then r else best)
      ((none : Option String), 0)
    match best.1 with
    | some name =>
        if name ≠ "" then (some name, best.2, "extracted_from_query")
        else wholeQueryRetry scorer query drug_names
    | none => wholeQueryRetry scorer query drug_names

/-! ## A small regex engine

`utils/intent.py` applies a fixed set of `re.search` patterns.  Each pattern
used by the repository is a `\b`-delimited alternation of near-literal words,
possibly chained with `.*` gaps.  The atoms below cover exactly the constructs
those patterns use: literal characters, an optional literal (`s?`), an optional
wildcard (`.?`), and `\s+`.  `re.search` truthiness is existence of a match at
some position, which is what `searchFrom` computes. -/

/-- One atom of a repository regex pattern. -/
inductive Atom where
  | lit (c : Char)
  | opt (c : Char)
  | optAny
  | wsPlus
  deriving Repr

/-- Atoms of a literal string. -/
def lits (s : String) : List Atom :=
  s.data.map Atom.lit

/--
Does some way of matching `as` starting at the head of `rest` reach a suffix
accepted by the continuation `k`?  (`k` checks the trailing word boundary.)
Every recursive call strictly shrinks `as.length + rest.length`, so the `fuel`
parameter (structural, to keep the function kernel-reducible) is just a bound
on the recursion depth and never runs out when seeded with
`as.length + rest.length + 1`.
-/
def matchHereF (fuel : Nat) (as : List Atom) (rest : List Char)
    (k : List Char → Bool) : Bool :=
  match fuel with
  | 0 => false
  | fuel + 1 =>
      match as, rest with
      | [], r => k r
      | .lit _ :: _, [] => false
      | .lit c :: as2, d :: r2 => d = c && matchHereF fuel as2 r2 k
      | .opt _ :: as2, [] => matchHereF fuel as2 [] k
      | .opt c :: as2, d :: r2 =>
          matchHereF fuel as2 (d :: r2) k || (d = c && matchHereF fuel as2 r2 k)
      | .optAny :: as2, [] => matchHereF fuel as2 [] k
      | .optAny :: as2, d :: r2 =>
          matchHereF fuel as2 (d :: r2) k || matchHereF fuel as2 r2 k
      | .wsPlus :: _, [] => false
      | .wsPlus :: as2, d :: r2 =>
          pyIsSpace d &&
            (matchHereF fuel as2 r2 k || matchHereF fuel (.wsPlus :: as2) r2 k)

/-- `matchHereF` seeded with enough fuel. -/
def matchHere (as : List Atom) (rest : List Char) (k : List Char → Bool) : Bool :=
  matchHereF (as.length + rest.length + 1) as rest k

/-- A word-bounded alternative: atoms plus leading/trailing `\b` flags.  All
repository alternatives begin and end with word characters, so a `\b` reduces
to a check on the neighbouring character. -/
structure Alt where
  atoms : List Atom
  leadB : Bool := true
  trailB : Bool := true

/-- The continuation enforcing a trailing `\b` (next char absent or non-word). -/
def trailK (alt : Alt) : List Char → Bool :=
  fun rest => !alt.trailB || (match rest with
    | [] => true
    | c :: _ => !isWordChar c)

/-- The leading `\b` check against the previous character. -/
def leadOK (alt : Alt) (prev : Option Char) : Bool :=
  !alt.leadB || (match prev with
    | none => true
    | some c => !isWordChar c)

/-- `re.search` of one alternative: try every start position. -/
def searchFrom (alt : Alt) (prev : Option Char) (s : List Char) : Bool :=
  (leadOK alt prev && matchHere alt.atoms s (trailK alt)) ||
    (match s with
     | [] => false
     | c :: rest => searchFrom alt (some c) rest)

/-- `re.search(pattern, s)` truthiness for an alternation of alternatives. -/
def reSearch (alts : List Alt) (s : String) : Bool :=
  alts.any (fun alt => searchFrom alt none s.data)

/-- An ordinary `\b(w1|w2|...)\b` alternation of literal words. -/
def wordAlts (ws : List String) : List Alt :=
  ws.map (fun w => { atoms := lits w })

/--
A `\bA\b.*\bB\b` (or longer) chain: a match of the first group followed
anywhere later by a match of the rest of the chain.  Models the `.*` gaps in
the status-detection patterns of `extract_filters`.  As with `matchHereF`,
`fuel` (a bound on `groups.length + s.length`) only makes the recursion
structural.
-/
def searchChainF (fuel : Nat) (groups : List (List Alt)) (prev : Option Char)
    (s : List Char) : Bool :=
  match fuel with
  | 0 => false
  | fuel + 1 =>
      match groups with
      | [] => true
      | g :: gs =>
          (g.any (fun alt =>
            leadOK alt prev && matchHere alt.atoms s
              (fun rest => trailK alt rest && searchChainF fuel gs none rest))) ||
          (match s with
           | [] => false
           | c :: rest => searchChainF fuel (g :: gs) (some c) rest)

/-- `searchChainF` seeded with enough fuel. -/
def searchChain (groups : List (List Alt)) (prev : Option Char) (s : List Char) : Bool :=
  searchChainF (groups.length + s.length + 1) groups prev s

/-- Chained search on a string. -/
def reSearchChain (groups : List (List Alt)) (s : String) : Bool :=
  searchChain groups none s.data

/-! ## `utils/intent.py` — filter extraction and validation -/

/-- `non.?preferred` as one alternative body. -/
def nonPrefAtoms : List Atom :=
  lits "non" ++ [Atom.optAny] ++ lits "preferred"

/-- `\b(non.?preferred)\b` (used at lines 101 and 105 of `utils/intent.py`). -/
def reNonPrefOnly : List Alt :=
  [{ atoms := nonPrefAtoms }]

/-- `\b(non.?preferred|not preferred)\b` (line 111). -/
def reNonPrefOrNot : List Alt :=
  [{ atoms := nonPrefAtoms }, { atoms := lits "not preferred" }]

/-- `\b(preferred)\b` (line 105). -/
def rePreferredWord : List Alt :=
  [{ atoms := lits "preferred" }]

/-- Line 93: `\b(non.?preferred|not preferred)\b.*\b(with|that have|having)\b.*\b(preferred)\b`. -/
def hpaChain : List (List Alt) :=
  [reNonPrefOrNot, wordAlts ["with", "that have", "having"], rePreferredWord]

/-- Line 97: `\b(both|all)\b.*\b(preferred|non.?preferred)` (no trailing `\b`). -/
def bothAllChain : List (List Alt) :=
  [wordAlts ["both", "all"],
   [{ atoms := lits "preferred", trailB := false },
    { atoms := nonPrefAtoms, trailB := false }]]

/-- Line 101: `\b(only|just|exclusively)\s+(preferred)\b`. -/
def reOnlyPreferred : List Alt :=
  ["only", "just", "exclusively"].map
    (fun w => { atoms := lits w ++ [Atom.wsPlus] ++ lits "preferred" })

/-- Line 108: `\b(alternative|alternatives|instead|other options?|replace|replacement)\b.*\bto\b`. -/
def alternativesToChain : List (List Alt) :=
  [[{ atoms := lits "alternative" }, { atoms := lits "alternatives" },
    { atoms := lits "instead" },
    { atoms := lits "other option" ++ [Atom.opt 's'] },
    { atoms := lits "replace" }, { atoms := lits "replacement" }],
   wordAlts ["to"]]

/-- Line 109: `\b(preferred\s+(alternative|drug|medication|option))` (no trailing `\b`). -/
def rePreferredNoun : List Alt :=
  ["alternative", "drug", "medication", "option"].map
    (fun w => { atoms := lits "preferred" ++ [Atom.wsPlus] ++ lits w, trailB := false })

/-- Line 115: `\b(pa|prior auth|preauth|pre.?auth|prior authorization|mnd|medical necessity)\b`. -/
def paMndVocab : List Alt :=
  [{ atoms := lits "pa" }, { atoms := lits "prior auth" }, { atoms := lits "preauth" },
   { atoms := lits "pre" ++ [Atom.optAny] ++ lits "auth" },
   { atoms := lits "prior authorization" }, { atoms := lits "mnd" },
   { atoms := lits "medical necessity" }]

/-- Line 116: `\b(requires?|requiring|need|needed)\b`. -/
def requireVerbs : List Alt :=
  [{ atoms := lits "require" ++ [Atom.opt 's'] }, { atoms := lits "requiring" },
   { atoms := lits "need" }, { atoms := lits "needed" }]

/-- Line 118: `\b(no pa|without pa|doesn.?t require|no mnd|without mnd)\b`. -/
def negationPhrases : List Alt :=
  [{ atoms := lits "no pa" }, { atoms := lits "without pa" },
   { atoms := lits "doesn" ++ [Atom.optAny] ++ lits "t require" },
   { atoms := lits "no mnd" }, { atoms := lits "without mnd" }]

/-- `CATEGORY_KEYWORDS` (`utils/intent.py`), in dict literal order. -/
def CATEGORY_KEYWORDS : List (String × List String) :=
  [("oncology", ["oncology", "cancer", "chemotherapy", "chemo"]),
   ("immunology", ["immunology", "immune", "autoimmune"]),
   ("rheumatology", ["rheumatology", "rheumatoid", "arthritis"]),
   ("dermatology", ["dermatology", "skin", "dermatological"]),
   ("gastroenterology", ["gastroenterology", "gi", "digestive", "crohn", "colitis"]),
   ("neurology", ["neurology", "neurological", "nerve"]),
   ("hematology", ["hematology", "blood"]),
   ("cardiology", ["cardiology", "heart", "cardiac"])]

/-- The first category one of whose keywords matches `\bkeyword\b` in the query. -/
def findCategory (ql : String) : Option String :=
  (CATEGORY_KEYWORDS.find? (fun entry =>
    entry.2.any (fun kw => reSearch (wordAlts [kw]) ql))).map (·.1)

/-- The `drug_status` / `has_preferred_alternative` detection chain of
`extract_filters` (lines 93-112 of `utils/intent.py`), applied to the lowered
query; returns the filter dict built so far. -/
def statusFilters (ql : String) : Filters :=
  if reSearchChain hpaChain ql then
    dset (dset [] "drug_status" (.str "non_preferred")) "has_preferred_alternative" (.boolv true)
  else if reSearchChain bothAllChain ql then
    []
  else if reSearch reOnlyPreferred ql && !reSearch reNonPrefOnly ql then
    dset [] "drug_status" (.str "preferred")
  else if reSearch rePreferredWord ql && !reSearch reNonPrefOnly ql then
    (if !reSearchChain alternativesToChain ql || reSearch rePreferredNoun ql then
      dset [] "drug_status" (.str "preferred")
    else [])
  else if reSearch reNonPrefOrNot ql then
    dset [] "drug_status" (.str "non_preferred")
  else []

/--
`extract_filters` (`utils/intent.py`): the status chain, then the combined
PA/MND detection (requirement verbs checked before negations), then the first
matching category keyword.
-/
def extract_filters (query : String) : Filters :=
  let ql := pyLower query
  let f1 := statusFilters ql
  let f2 :=
    if reSearch paMndVocab ql then
      if reSearch requireVerbs ql then dset f1 "pa_mnd_required" (.str "yes")
      else if reSearch negationPhrases ql then dset f1 "pa_mnd_required" (.str "no")
      else f1
    else f1
  match findCategory ql with
  | some cat => dset f2 "category" (.str cat)
  | none => f2

/-- One `if key in filters: [if valid:] copy` step of `validate_filters`. -/
def copyIf (src dst : Filters) (k : String) (ok : JVal → Bool) : Filters :=
  match dget src k with
  | some v => if ok v then dset dst k v else dst
  | none => dst

/-- Valid stored `drug_status` values. -/
def okStatus (v : JVal) : Bool :=
  v = .str "preferred" || v = .str "non_preferred" || v = .str "not_listed"

/-- Valid stored `pa_mnd_required` values. -/
def okPaMnd (v : JVal) : Bool :=
  v = .str "yes" || v = .str "no" || v = .str "unknown"

/--
`validate_filters` (`utils/intent.py`): whitelist copy in fixed key order;
invalid `drug_status` / `pa_mnd_required` values are dropped, the remaining
recognized keys are copied as-is.
-/
def validate_filters (filters : Filters) : Filters :=
  let v1 := copyIf filters [] "drug_status" okStatus
  let v2 := copyIf filters v1 "pa_mnd_required" okPaMnd
  let v3 := copyIf filters v2 "category" (fun _ => true)
  let v4 := copyIf filters v3 "hcpcs" (fun _ => true)
  let v5 := copyIf filters v4 "manufacturer" (fun _ => true)
  copyIf filters v5 "has_preferred_alternative" (fun _ => true)

/-- The parsed-intent dict produced by the rule-based parser and mutated by the
orchestrator (`query_type`, `confidence`, `drug_name`, `drug_confidence`,
`filters`, `method`). -/
structure ParsedIntent where
  query_type : String
  confidence : Nat
  drug_name : Option String
  drug_confidence : Nat
  filters : Filters
  method : String
  deriving DecidableEq, Repr

/-- Python truthiness of the `drug_name` slot (`None` and `""` are falsy). -/
def nameTruthy : Option String → Bool
  | none => false
  | some s => s ≠ ""

/--
`should_use_llm_fallback` (`utils/intent.py`): fall back when type confidence
is below 70, or when the query type needs a drug name and
`not parse_result['drug_name']` (Python truthiness) or its confidence is
below 70.
-/
def should_use_llm_fallback (p : ParsedIntent) : Bool :=
  if p.confidence < 70 then true
  else if p.query_type = "drug_status" || p.query_type = "alternatives" then
    if !nameTruthy p.drug_name || p.drug_confidence < 70 then true else false
  else false

/-! ## `utils/llm.py` — validation of the LLM intent response, and the
`app.py` merge step -/

/-- The raw structure parsed out of the LLM's JSON response. -/
structure LlmRaw where
  query_type : JVal
  drug_name : JVal
  filters : Filters
  deriving Repr

/-- The dict returned by `extract_intent_with_llm` on success. -/
structure LlmIntent where
  query_type : String
  drug_name : JVal
  filters : Filters
  confidence : Nat
  method : String
  deriving Repr

/-- One `if key in filters and value not in allowed: filters[key] = None` step
of the LLM filter fix-up. -/
def llmFixKey (f : Filters) (k : String) (allowed : List JVal) : Filters :=
  match dget f k with
  | some v => if v ∈ allowed then f else dset f k .null
  | none => f

/--
The filter fix-up inside `extract_intent_with_llm` (`utils/llm.py` lines
124-130): a present `drug_status` outside
`['preferred', 'non_preferred', None]` is *replaced by `None`* (the key stays);
likewise `pa_mnd_required` outside `['yes', 'no', None]`.  Other keys pass
through untouched.
-/
def llmValidateFilters (f : Filters) : Filters :=
  llmFixKey
    (llmFixKey f "drug_status" [.str "preferred", .str "non_preferred", .null])
    "pa_mnd_required" [.str "yes", .str "no", .null]

/--
`extract_intent_with_llm` (`utils/llm.py`) after a successful API call and JSON
parse: reject a response missing required keys or with an invalid query type,
fix up the filters, and return the intent dict with confidence 75.  The
`Option` models the `None` returns (rejection / API failure).
-/
def extract_intent_with_llm (raw : Option LlmRaw) : Option LlmIntent :=
  match raw with
  | none => none
  | some r =>
      match r.query_type with
      | .str qt =>
          if qt = "drug_status" ∨ qt = "alternatives" ∨ qt = "list_filter" then
            some { query_type := qt, drug_name := r.drug_name,
                   filters := llmValidateFilters r.filters,
                   confidence := 75, method := "llm_fallback" }
          else none
      | _ => none

/--
The fallback merge of `process_query` (`app.py` lines 240-249): adopt the LLM
drug name only if the rule-based intent has none, always adopt a truthy LLM
query type, and `dict.update` the LLM filters into the rule-based filters.
-/
def mergeLlmIntent (parsed : ParsedIntent) (llm : Option LlmIntent) : ParsedIntent :=
  match llm with
  | none => parsed
  | some li =>
      let p1 :=
        match li.drug_name with
        | .str s =>
            if s ≠ "" ∧ ¬ nameTruthy parsed.drug_name then
              { parsed with drug_name := some s }
            else parsed
        | _ => parsed
      let p2 := if li.query_type ≠ "" then { p1 with query_type := li.query_type } else p1
      if li.filters ≠ [] then { p2 with filters := dupdate p2.filters li.filters } else p2

/-! ## `app.py` — the staged drug-name resolution of `process_query`

Step 2 of `process_query` (lines 194-228): a "quick extraction attempt"
`extract_drug_name_from_query(query, [])` against the *empty* reference set;
only when that yields a truthy token does it try the server-side approximate
search (`fuzzy_search_drug_db`), accept a top score of at least 70, and
otherwise load the full catalog and rerun the extractor.  `dbSearch` abstracts
the storage collaborator's approximate search; scores are the rationals the
position/length formula produces.
-/

/-- The `drug_name` / `drug_confidence` pair produced by step 2 of
`process_query` for a `drug_status`/`alternatives` query. -/
def resolveDrugNameStaged (scorer : String → String → Nat)
    (dbSearch : String → List (String × ℚ)) (catalog : List String)
    (query : String) : Option String × ℚ :=
  let potential := extract_drug_name_from_query scorer query []
  match potential.1 with
  | some pd =>
      if pd ≠ "" then
        let dbMatches := dbSearch pd
        match dbMatches with
        | (n, s) :: _ =>
            if s ≥ 70 then (some n, s)
            else
              let r := extract_drug_name_from_query scorer query catalog
              (r.1, (r.2.1 : ℚ))
        | [] =>
            let r := extract_drug_name_from_query scorer query catalog
            (r.1, (r.2.1 : ℚ))
      else (none, 0)
  | none => (none, 0)

/-! ## `utils/db.py` — storage rows, aggregation, lookups -/

/-- One storage row of the `drugs` table (one row per `(drug_name, category)`). -/
structure Row where
  drug_name : String
  category : Option String
  drug_status : String
  hcpcs : Option String
  manufacturer : Option String
  pa_mnd_required : String
  notes : Option String
  deriving DecidableEq, Repr

/-- An aggregated logical drug as the repository's result dicts hold it.  The
three `fz*` fields model the optional `_fuzzy_match` / `_fuzzy_confidence` /
`_original_query` keys that `app.py` probes on result dicts (`none` = key
absent). -/
structure Drug where
  drug_name : String
  hcpcs : Option String
  manufacturer : Option String
  pa_mnd_required : String
  notes : Option String
  categories : List (Option String)
  statuses_by_category : List (Option String × String)
  drug_status : String
  fzMatch : Option Bool := none
  fzConfidence : Option Nat := none
  fzOriginalQuery : Option String := none
  deriving DecidableEq, Repr

/--
The overall-status derivation shared verbatim by `fetch_drug_by_name`,
`fetch_alternatives` and `filter_drugs`: `preferred` if any status is
`preferred`, else `non_preferred` if any, else the first status, else
`not_listed`.
-/
def deriveStatus (statuses : List String) : String :=
  if "preferred" ∈ statuses then "preferred"
  else if "non_preferred" ∈ statuses then "non_preferred"
  else match statuses with
    | [] => "not_listed"
    | s :: _ => s

/-- A fresh group entry for a first-seen drug name (header fields from the
first row, empty category/status collections). -/
def emptyDrug (r : Row) : Drug :=
  { drug_name := r.drug_name, hcpcs := r.hcpcs, manufacturer := r.manufacturer,
    pa_mnd_required := r.pa_mnd_required, notes := r.notes,
    categories := [], statuses_by_category := [], drug_status := "" }

/-- One iteration of the `drugs_dict` grouping loop: fetch or create the group
for the row's name, append the row's category, set its status. -/
def addRowToGroups (m : List (String × Drug)) (r : Row) : List (String × Drug) :=
  let d0 := match dget m r.drug_name with
    | none => emptyDrug r
    | some d => d
  dset m r.drug_name
    { d0 with
      categories := d0.categories ++ [r.category],
      statuses_by_category := dset d0.statuses_by_category r.category r.drug_status }

/-- The `drugs_dict` grouping loop of `fetch_alternatives` / `filter_drugs`. -/
def groupRows (rows : List Row) : List (String × Drug) :=
  rows.foldl addRowToGroups []

/-- Grouping plus the per-group overall-status derivation, in dict insertion
order (first occurrence of each drug name). -/
def aggregateRows (rows : List Row) : List Drug :=
  (groupRows rows).map (fun p =>
    { p.2 with drug_status := deriveStatus (p.2.statuses_by_category.map (·.2)) })

/-- The single-drug aggregation of `fetch_drug_by_name`: header fields from the
first row, categories from every row in order, statuses keyed by category. -/
def aggregateSingle (first : Row) (rest : List Row) : Drug :=
  let rows := first :: rest
  let statuses := rows.foldl (fun m r => dset m r.category r.drug_status) []
  { drug_name := first.drug_name, hcpcs := first.hcpcs,
    manufacturer := first.manufacturer, pa_mnd_required := first.pa_mnd_required,
    notes := first.notes,
    categories := rows.map (·.category),
    statuses_by_category := statuses,
    drug_status := deriveStatus (statuses.map (·.2)) }

/-- PostgreSQL `ILIKE`: case-insensitive pattern match with `%` and `_`.  The
`fuel` (a bound on `ps.length + s.length`) only makes the recursion structural. -/
def likeCharsF (fuel : Nat) (ps s : List Char) : Bool :=
  match fuel with
  | 0 => false
  | fuel + 1 =>
      match ps, s with
      | [], [] => true
      | [], _ :: _ => false
      | '%' :: ps2, s =>
          likeCharsF fuel ps2 s ||
            (match s with
             | [] => false
             | _ :: s2 => likeCharsF fuel ('%' :: ps2) s2)
      | '_' :: ps2, s =>
          (match s with
           | [] => false
           | _ :: s2 => likeCharsF fuel ps2 s2)
      | p :: ps2, s =>
          (match s with
           | [] => false
           | c :: s2 => c.toLower = p.toLower && likeCharsF fuel ps2 s2)

/-- `column ILIKE pattern` on a string value. -/
def ilike (pat s : String) : Bool :=
  likeCharsF (pat.data.length + s.data.length + 1) pat.data s.data

/-- Ordinal `≤` on drug names, as the model of `ORDER BY drug_name` and of
Python `sorted`. -/
def nameLe (a b : String) : Prop := strLe a b = true

instance : DecidableRel nameLe := fun a b => decEq (strLe a b) true

instance : IsTotal String nameLe := ⟨strLe_total⟩

instance : IsTrans String nameLe := ⟨strLe_trans⟩

/-- `fetch_all_drug_names` (`utils/db.py`): the sorted list of distinct stored
drug names (pagination only affects how the set is accumulated). -/
def fetch_all_drug_names (table : List Row) : List String :=
  List.insertionSort nameLe ((table.map (·.drug_name)).eraseDups)

/--
`fetch_drug_by_name` (`utils/db.py`): exact `ILIKE` lookup first; on a miss,
`fuzzy_match_drug_name` against the full catalog (threshold 70), rejecting
confidence below 70, then a re-query by the matched name; the surviving rows
are aggregated into one drug.  No fuzzy-provenance keys are written.
-/
def fetch_drug_by_name (scorer : String → String → Nat) (table : List Row)
    (name : String) : Option Drug :=
  let rows := table.filter (fun r => ilike name r.drug_name)
  match rows with
  | first :: rest => some (aggregateSingle first rest)
  | [] =>
      let allNames := fetch_all_drug_names table
      let m := fuzzy_match_drug_name scorer name allNames 70
      match m.1 with
      | none => none
      | some matchedName =>
          if m.2 < 70 then none
          else
            match table.filter (fun r => ilike matchedName r.drug_name) with
            | [] => none
            | first :: rest => some (aggregateSingle first rest)

/--
`fetch_alternatives` (`utils/db.py`): resolve the source drug, then for each of
its categories fetch every other drug's rows in that category (name-ordered,
optionally status-filtered), and aggregate the concatenation by drug name.
-/
def fetch_alternatives (scorer : String → String → Nat) (table : List Row)
    (drug_name : String) (drug_status : Option String) : List Drug :=
  match fetch_drug_by_name scorer table drug_name with
  | none => []
  | some info =>
      if info.categories.isEmpty then []
      else
        let allRows := info.categories.flatMap (fun cat =>
          match cat with
          | none => []
          | some c =>
              List.insertionSort (fun r1 r2 => nameLe r1.drug_name r2.drug_name)
                (table.filter (fun r =>
                  r.category = some c && r.drug_name ≠ info.drug_name &&
                    (match drug_status with
                     | some st => r.drug_status = st
                     | none => true))))
        aggregateRows allRows

/-- The categories having at least one preferred drug
(`get_non_preferred_drugs_with_preferred_alternatives`, set-building loop;
`if row.get('category'):` keeps only truthy category values). -/
def categoriesWithPreferred (table : List Row) : List String :=
  (table.filter (fun r => r.drug_status = "preferred" && r.category ≠ none)).filterMap
    (fun r => match r.category with
      | some c => if c ≠ "" then some c else none
      | none => none)

/--
`get_non_preferred_drugs_with_preferred_alternatives` (`utils/db.py`): group
the non-preferred rows (category non-null, *no* `ORDER BY`) whose category has
some preferred drug, and force each group's overall status to `non_preferred`.
-/
def get_non_preferred_drugs_with_preferred_alternatives (table : List Row) :
    List Drug :=
  let nonPrefRows := table.filter (fun r =>
    r.drug_status = "non_preferred" && r.category ≠ none)
  let prefCats := categoriesWithPreferred table
  let qualifying := nonPrefRows.filter (fun r =>
    match r.category with
    | some c => c ∈ prefCats
    | none => false)
  (groupRows qualifying).map (fun p => { p.2 with drug_status := "non_preferred" })

/-- The normalized status value `filter_drugs` compares against
(`value.lower().replace('-', '_')`); only string values reach this point in the
source (a truthy non-string would raise before querying). -/
def normStatus (s : String) : String :=
  (pyLower s).replace "-" "_"

/--
`filter_drugs` (`utils/db.py`): the `has_preferred_alternative` special case
delegates; otherwise each truthy, recognized filter adds a conjunct, the rows
are name-ordered by the store, and the result is aggregated by drug name.
-/
def filter_drugs (table : List Row) (filters : Filters) : List Drug :=
  if dgetTruthy filters "has_preferred_alternative" then
    get_non_preferred_drugs_with_preferred_alternatives table
  else
    let statusFilter := match dget filters "drug_status" with
      | some (.str s) =>
          if s ≠ "" ∧ normStatus s ∈ ["preferred", "non_preferred", "not_listed"] then
            some (normStatus s)
          else none
      | _ => none
    let paFilter := match dget filters "pa_mnd_required" with
      | some (.str s) =>
          if s ≠ "" ∧ pyLower s ∈ ["yes", "no", "unknown"] then some (pyLower s)
          else none
      | _ => none
    let catFilter := match dget filters "category" with
      | some (.str s) => if s ≠ "" then some s else none
      | _ => none
    let hcpcsFilter := match dget filters "hcpcs" with
      | some (.str s) => if s ≠ "" then some s else none
      | _ => none
    let mfrFilter := match dget filters "manufacturer" with
      | some (.str s) => if s ≠ "" then some s else none
      | _ => none
    let rows := table.filter (fun r =>
      (match statusFilter with
       | some st => r.drug_status = st
       | none => true) &&
      (match paFilter with
       | some pv => r.pa_mnd_required = pv
       | none => true) &&
      (match catFilter with
       | some c =>
           (match r.category with
            | some rc => ilike ("%" ++ c ++ "%") rc
            | none => false)
       | none => true) &&
      (match hcpcsFilter with
       | some h => r.hcpcs = some h
       | none => true) &&
      (match mfrFilter with
       | some m =>
           (match r.manufacturer with
            | some rm => ilike ("%" ++ m ++ "%") rm
            | none => false)
       | none => true))
    aggregateRows
      (List.insertionSort (fun r1 r2 => nameLe r1.drug_name r2.drug_name) rows)

/-! ## `suggest_corrections` (`utils/db.py`) -/

/-- The 2-tuple returned by `fuzzy_match_drug_name`, as the heterogeneous
Python tuple the caller tries to unpack. -/
def fuzzyMatchTuple (scorer : String → String → Nat) (query : String)
    (drug_names : List String) : List JVal :=
  let r := fuzzy_match_drug_name scorer query drug_names 70
  [match r.1 with
   | some n => JVal.str n
   | none => JVal.null,
   JVal.num r.2]

/-- Python iterable unpacking `a, b, c = t`: succeeds only on exactly three
values, otherwise raises `ValueError`. -/
def unpack3 (vs : List JVal) : Except String (JVal × JVal × JVal) :=
  match vs with
  | [a, b, c] => .ok (a, b, c)
  | _ => .error "ValueError: not enough values to unpack"

/-- Numeric payload of a `JVal` (0 for non-numbers). -/
def JVal.asNum : JVal → Nat
  | .num n => n
  | _ => 0

/--
The `try` body of `suggest_corrections`: serve threshold-filtered
database-search results when any survive; otherwise fall back to the
client-side path, which begins by unpacking the fuzzy-match 2-tuple into three
variables.  `extractFn` abstracts `rapidfuzz.process.extract`; that code is
unreachable (the unpacking raises first).
-/
def suggestCorrectionsBody (scorer : String → String → Nat)
    (extractFn : String → List String → List (String × Nat))
    (dbResults : List (String × ℚ)) (allNames : List String) (query : String)
    (threshold : ℚ) : Except String (List (String × ℚ)) :=
  let filteredDb :=
    if dbResults ≠ [] then
      dbResults.filterMap (fun p =>
        if p.2 / 100 ≥ threshold then some (p.1, p.2 / 100) else none)
    else []
  if dbResults ≠ [] ∧ filteredDb ≠ [] then .ok filteredDb
  else
    match unpack3 (fuzzyMatchTuple scorer query allNames) with
    | .error e => .error e
    | .ok (matchedName, confidence, _) =>
        if matchedName.truthy ∧ (confidence.asNum : ℚ) ≥ threshold * 100 then
          .ok ((extractFn query allNames).filterMap (fun p =>
            if (p.2 : ℚ) / 100 ≥ threshold then some (p.1, (p.2 : ℚ) / 100) else none))
        else .ok []

/-- `suggest_corrections`: the surrounding `except` handler turns any raised
error into `[]`. -/
def suggest_corrections (scorer : String → String → Nat)
    (extractFn : String → List String → List (String × Nat))
    (dbResults : List (String × ℚ)) (allNames : List String) (query : String)
    (threshold : ℚ) : List (String × ℚ) :=
  match suggestCorrectionsBody scorer extractFn dbResults allNames query threshold with
  | .ok r => r
  | .error _ => []

/-! ## `app.py` — `execute_query` dispatch -/

/-- The `drug_status` value handed to `fetch_alternatives`
(`filters.get('drug_status') if filters else None`). -/
def statusFilterOfFilters (f : Filters) : Option String :=
  match dget f "drug_status" with
  | some (.str s) => if s ≠ "" then some s else none
  | _ => none

/--
`execute_query` (`app.py`): dispatch on the query type; a missing drug name for
`drug_status`/`alternatives` is a terminal empty result, never an error.
-/
def execute_query (scorer : String → String → Nat) (table : List Row)
    (p : ParsedIntent) : List Drug :=
  if p.query_type = "drug_status" then
    if ¬ nameTruthy p.drug_name then []
    else
      match p.drug_name with
      | some n =>
          (match fetch_drug_by_name scorer table n with
           | some d => [d]
           | none => [])
      | none => []
  else if p.query_type = "alternatives" then
    if ¬ nameTruthy p.drug_name then []
    else
      match p.drug_name with
      | some n => fetch_alternatives scorer table n (statusFilterOfFilters p.filters)
      | none => []
  else if p.query_type = "list_filter" then
    filter_drugs table p.filters
  else []

/-! ## Supporting lemmas -/

theorem fuzzy_match_nil (scorer : String → String → Nat) (q : String) (t : Nat) :
    fuzzy_match_drug_name scorer q [] t = (none, 0) := by
  simp [fuzzy_match_drug_name]

theorem extract_nil (scorer : String → String → Nat) (q : String) (h : q ≠ "") :
    extract_drug_name_from_query scorer q [] = (none, 0, "no_match") := by
  unfold extract_drug_name_from_query
  rw [if_neg h]
  have hfold : ∀ (l : List String),
      l.foldl
        (fun best cand =>
          let r := fuzzy_match_drug_name scorer cand [] 60
          if r.2 > best.2 then r else best)
        ((none : Option String), 0) = (none, 0) := by
    intro l
    induction l with
    | nil => rfl
    | cons c cs ih => simp [fuzzy_match_nil, ih]
  simp [hfold, wholeQueryRetry, fuzzy_match_nil]

/-! ## Claim theorems -/

/--
C1: the staged resolution of `process_query` is claimed to fall back to the
full catalog and the full `CandidateExtractor` when the server-side search
yields nothing scoring 70 or more.  In the code this never happens: step (1)
runs `extract_drug_name_from_query(query, [])` with an *empty* reference set,
`fuzzy_match_drug_name` returns `(None, 0)` for an empty candidate list, so
the extracted token is always `None` and the entire server-search-plus-fallback
branch is dead code — `drug_name` stays `None` with confidence 0 for every
query.  The second conjunct evaluates the extraction step at the concrete
failing input `"Is Keytruda preferred?"`.
-/
theorem C1_staged_fallback_unreachable :
    (∀ (scorer : String → String → Nat) (dbSearch : String → List (String × ℚ))
        (catalog : List String) (query : String),
        resolveDrugNameStaged scorer dbSearch catalog query = (none, 0)) ∧
    extract_drug_name_from_query (fun _ _ => 0) "Is Keytruda preferred?" [] =
      (none, 0, "no_match") := by
  constructor
  · intro scorer dbSearch catalog query
    unfold resolveDrugNameStaged
    by_cases h : query = ""
    · subst h
      simp [extract_drug_name_from_query]
    · rw [extract_nil scorer query h]
  · exact extract_nil _ _ (by decide)

/-- The fallback condition exactly as claim C4 words it (`drug_name` null). -/
def fallbackSpecClaim (p : ParsedIntent) : Prop :=
  p.confidence < 70 ∨
    ((p.query_type = "drug_status" ∨ p.query_type = "alternatives") ∧
      (p.drug_name = none ∨ p.drug_confidence < 70))

/--
C4 counterexample: a `drug_status` parse with confidence 90, drug confidence
100 and `drug_name = some ""` (a non-null value).  The claimed
iff says no fallback; the code's Python truthiness test
`not parse_result['drug_name']` fires on the empty string and returns `True`.
-/
theorem C4_counterexample :
    should_use_llm_fallback
        { query_type := "drug_status", confidence := 90, drug_name := some "",
          drug_confidence := 100, filters := [], method := "rule_based" } = true ∧
    ¬ fallbackSpecClaim
        { query_type := "drug_status", confidence := 90, drug_name := some "",
          drug_confidence := 100, filters := [], method := "rule_based" } := by
  constructor
  · decide
  · intro h
    rcases h with h | ⟨_, h | h⟩ <;> simp_all

/--
C4 amended: `should_use_llm_fallback(parsed)` returns true iff
`parsed.confidence < 70`, or the query type is `drug_status`/`alternatives`
and the drug name is null *or empty* or its confidence is below 70.
-/
theorem C4_fallback_gate (p : ParsedIntent) :
    should_use_llm_fallback p = true ↔
      (p.confidence < 70 ∨
        ((p.query_type = "drug_status" ∨ p.query_type = "alternatives") ∧
          (p.drug_name = none ∨ p.drug_name = some "" ∨ p.drug_confidence < 70))) := by
  unfold should_use_llm_fallback nameTruthy
  by_cases h1 : p.confidence < 70
  · simp [h1]
  · cases hn : p.drug_name with
    | none => simp [h1, hn]
    | some s =>
        by_cases hs : s = ""
        · subst hs; simp [h1, hn]
        · simp [h1, hn, hs]

/-- The status-detection chain never touches keys other than `drug_status` and
`has_preferred_alternative`. -/
theorem dget_statusFilters_other (ql : String) (k : String)
    (h1 : k ≠ "drug_status") (h2 : k ≠ "has_preferred_alternative") :
    dget (statusFilters ql) k = none := by
  unfold statusFilters
  split_ifs <;>
    first
      | rfl
      | (rw [dget_dset_ne _ _ _ _ (Ne.symm h2), dget_dset_ne _ _ _ _ (Ne.symm h1)]; rfl)
      | (rw [dget_dset_ne _ _ _ _ (Ne.symm h1)]; rfl)

/--
C5 counterexample: for the query `"doesn't require pa"` the PA/MND vocabulary
co-occurs with the negation `"doesn't require"` (third conjunct), yet
`extract_filters` stores `pa_mnd_required = 'yes'`, not the claimed `'no'`:
the requirement-verb pattern `\b(requires?|...)\b` also matches the bare
`require` inside the negated phrase, and the code tests it first.
-/
theorem C5_counterexample :
    dget (extract_filters "doesn\x27t require pa") "pa_mnd_required" =
        some (JVal.str "yes") ∧
    dget (extract_filters "doesn\x27t require pa") "pa_mnd_required" ≠
        some (JVal.str "no") ∧
    reSearch negationPhrases (pyLower "doesn\x27t require pa") = true ∧
    reSearch paMndVocab (pyLower "doesn\x27t require pa") = true := by
  refine ⟨by decide, by decide, by decide, by decide⟩

/--
C5 amended: `extract_filters` sets `pa_mnd_required='yes'` exactly when PA/MND
vocabulary co-occurs with a requirement verb (even one inside a negated phrase
such as "doesn't require"); it sets `'no'` exactly when PA/MND vocabulary
co-occurs with a negation *and no requirement verb occurs*; otherwise the key
is absent.
-/
theorem C5_pa_mnd_key (q : String) :
    dget (extract_filters q) "pa_mnd_required" =
      (if reSearch paMndVocab (pyLower q) then
        if reSearch requireVerbs (pyLower q) then some (JVal.str "yes")
        else if reSearch negationPhrases (pyLower q) then some (JVal.str "no")
        else none
      else none) := by
  have hs : dget (statusFilters (pyLower q)) "pa_mnd_required" = none :=
    dget_statusFilters_other _ _ (by decide) (by decide)
  unfold extract_filters
  have hcat : ∀ (f : Filters),
      dget (match findCategory (pyLower q) with
            | some cat => dset f "category" (JVal.str cat)
            | none => f) "pa_mnd_required" = dget f "pa_mnd_required" := by
    intro f
    cases findCategory (pyLower q) with
    | none => rfl
    | some c => exact dget_dset_ne _ _ _ _ (by decide)
  simp only [hcat]
  by_cases h1 : reSearch paMndVocab (pyLower q)
  · by_cases h2 : reSearch requireVerbs (pyLower q)
    · simp [h1, h2, dget_dset_self]
    · by_cases h3 : reSearch negationPhrases (pyLower q)
      · simp [h1, h2, h3, dget_dset_self]
      · simp [h1, h2, h3, hs]
  · simp [h1, hs]

/-! ### Dict and grouping lemmas -/

theorem mem_of_dget {K V : Type} [DecidableEq K] {m : List (K × V)} {k : K} {v : V}
    (h : dget m k = some v) : (k, v) ∈ m := by
  induction m with
  | nil => simp [dget] at h
  | cons p rest ih =>
    obtain ⟨k', v'⟩ := p
    by_cases hk : k' = k
    · subst hk
      simp [dget] at h
      simp [h]
    · simp [dget, hk] at h
      simp [ih h]

theorem mem_dset {K V : Type} [DecidableEq K] {m : List (K × V)} {k : K} {v : V}
    {p : K × V} (h : p ∈ dset m k v) : p ∈ m ∨ p = (k, v) := by
  induction m with
  | nil => simp [dset] at h; simp [h]
  | cons q rest ih =>
    obtain ⟨k', v'⟩ := q
    by_cases hk : k' = k
    · subst hk
      simp [dset] at h
      rcases h with h | h
      · right; simp [h]
      · left; simp [h]
    · simp [dset, hk] at h
      rcases h with h | h
      · left; simp [h]
      · rcases ih h with h2 | h2
        · left; simp [h2]
        · right; exact h2

theorem dset_ne_nil {K V : Type} [DecidableEq K] (m : List (K × V)) (k : K) (v : V) :
    dset m k v ≠ [] := by
  cases m with
  | nil => simp [dset]
  | cons p rest =>
    obtain ⟨k', v'⟩ := p
    by_cases hk : k' = k <;> simp [dset, hk]

theorem keys_dset_mem {K V : Type} [DecidableEq K] {m : List (K × V)} {k : K} (v : V)
    (h : k ∈ m.map (·.1)) : (dset m k v).map (·.1) = m.map (·.1) := by
  induction m with
  | nil => simp at h
  | cons p rest ih =>
    obtain ⟨k', v'⟩ := p
    by_cases hk : k' = k
    · subst hk; simp [dset]
    · simp [hk] at h
      rcases h with h | h
      · exact absurd h.symm hk
      · obtain ⟨x, hx⟩ := h
        have : k ∈ rest.map (·.1) := List.mem_map.mpr ⟨(k, x), hx, rfl⟩
        simp [dset, hk, ih this]

theorem keys_dset_not_mem {K V : Type} [DecidableEq K] {m : List (K × V)} {k : K} (v : V)
    (h : k ∉ m.map (·.1)) : (dset m k v).map (·.1) = m.map (·.1) ++ [k] := by
  induction m with
  | nil => simp [dset]
  | cons p rest ih =>
    obtain ⟨k', v'⟩ := p
    simp at h
    have hk : k' ≠ k := fun e => h.1 e.symm
    simp [dset, hk, ih (by simpa using h.2)]

theorem keys_nodup_dset {K V : Type} [DecidableEq K] {m : List (K × V)} {k : K} {v : V}
    (h : (m.map (·.1)).Nodup) : ((dset m k v).map (·.1)).Nodup := by
  by_cases hk : k ∈ m.map (·.1)
  · rw [keys_dset_mem v hk]; exact h
  · rw [keys_dset_not_mem v hk]
    have hk2 : ∀ x : V, (k, x) ∉ m := by
      intro x hx
      exact hk (List.mem_map.mpr ⟨(k, x), hx, rfl⟩)
    simpa [List.nodup_append] using ⟨h, hk2⟩

/-- The invariant maintained for each group while the `drugs_dict` loop runs:
the binding key is the drug's name, the statuses map is non-empty, every status
value comes from a scanned row (abstracted by `S`), and the statuses map has no
duplicate category keys. -/
def GroupInv (S : String → Prop) (nd : String × Drug) : Prop :=
  nd.2.drug_name = nd.1 ∧
  nd.2.statuses_by_category ≠ [] ∧
  (∀ p ∈ nd.2.statuses_by_category, S p.2) ∧
  (nd.2.statuses_by_category.map (·.1)).Nodup

theorem groupRows_inv (S : String → Prop) :
    ∀ (rows : List Row) (m : List (String × Drug)),
      (∀ r ∈ rows, S r.drug_status) →
      (∀ nd ∈ m, GroupInv S nd) →
      ∀ nd ∈ rows.foldl addRowToGroups m, GroupInv S nd := by
  intro rows
  induction rows with
  | nil => intro m _ hm nd hnd; exact hm nd hnd
  | cons r rest ih =>
    intro m hrows hm nd hnd
    have hr : S r.drug_status := hrows r (by simp)
    have hrest : ∀ r' ∈ rest, S r'.drug_status := fun r' h => hrows r' (by simp [h])
    refine ih (addRowToGroups m r) hrest ?_ nd (by simpa using hnd)
    intro nd' hnd'
    unfold addRowToGroups at hnd'
    rcases mem_dset hnd' with h | h
    · exact hm nd' h
    · subst h
      set d0 := (match dget m r.drug_name with
        | none => emptyDrug r
        | some d => d) with hd0
      have hname : d0.drug_name = r.drug_name := by
        rw [hd0]
        cases hg : dget m r.drug_name with
        | none => rfl
        | some d =>
            have := (hm (r.drug_name, d) (mem_of_dget hg)).1
            simpa using this
      have hstat : ∀ p ∈ d0.statuses_by_category, S p.2 := by
        rw [hd0]
        cases hg : dget m r.drug_name with
        | none => intro p hp; simp [emptyDrug] at hp
        | some d => exact (hm (r.drug_name, d) (mem_of_dget hg)).2.2.1
      have hnodup : (d0.statuses_by_category.map (·.1)).Nodup := by
        rw [hd0]
        cases hg : dget m r.drug_name with
        | none => simp [emptyDrug]
        | some d => exact (hm (r.drug_name, d) (mem_of_dget hg)).2.2.2
      refine ⟨by simpa using hname, ?_, ?_, ?_⟩
      · simpa using dset_ne_nil d0.statuses_by_category r.category r.drug_status
      · intro p hp
        simp at hp
        rcases mem_dset hp with h2 | h2
        · exact hstat p h2
        · subst h2; exact hr
      · simpa using keys_nodup_dset hnodup

theorem deriveStatus_spec (vs : List String) :
    (deriveStatus vs = "preferred" ↔ "preferred" ∈ vs) ∧
    ("preferred" ∉ vs →
      (deriveStatus vs = "non_preferred" ↔ "non_preferred" ∈ vs)) ∧
    ("preferred" ∉ vs → "non_preferred" ∉ vs →
      deriveStatus vs = vs.headD "not_listed") := by
  unfold deriveStatus
  by_cases h1 : "preferred" ∈ vs
  · simp [h1]
  · by_cases h2 : "non_preferred" ∈ vs
    · simp [h1, h2]
    · cases vs with
      | nil => simp [h1, h2]
      | cons s t =>
          simp only [h1, h2, if_false]
          have hs : s ≠ "preferred" := by
            intro e; exact h1 (by simp [e])
          have hs2 : s ≠ "non_preferred" := by
            intro e; exact h2 (by simp [e])
          simp [h1, h2, hs, hs2]

/-- The overall-status invariant of claim C2, stated for one logical drug:
`preferred` iff some category status is `preferred`; otherwise `non_preferred`
iff some category status is `non_preferred`; otherwise the first available
status, with `not_listed` as the empty default. -/
def statusInvariant (d : Drug) : Prop :=
  (d.drug_status = "preferred" ↔ ∃ p ∈ d.statuses_by_category, p.2 = "preferred") ∧
  ((¬ ∃ p ∈ d.statuses_by_category, p.2 = "preferred") →
    (d.drug_status = "non_preferred" ↔
      ∃ p ∈ d.statuses_by_category, p.2 = "non_preferred")) ∧
  ((¬ ∃ p ∈ d.statuses_by_category, p.2 = "preferred") →
   (¬ ∃ p ∈ d.statuses_by_category, p.2 = "non_preferred") →
    d.drug_status = (d.statuses_by_category.map (·.2)).headD "not_listed")

theorem statusInvariant_of_derive (d : Drug)
    (h : d.drug_status = deriveStatus (d.statuses_by_category.map (·.2))) :
    statusInvariant d := by
  obtain ⟨h1, h2, h3⟩ := deriveStatus_spec (d.statuses_by_category.map (·.2))
  have hmem : ∀ (s : String),
      (s ∈ d.statuses_by_category.map (·.2)) ↔
        ∃ p ∈ d.statuses_by_category, p.2 = s := by
    intro s; simp [List.mem_map]
  refine ⟨?_, ?_, ?_⟩
  · rw [h, h1, hmem]
  · intro hnp
    rw [h, h2 (by rw [hmem]; exact hnp), hmem]
  · intro hnp hnn
    rw [h, h3 (by rw [hmem]; exact hnp) (by rw [hmem]; exact hnn)]

/--
C2: every logical drug produced by any aggregation path satisfies the
overall-status precedence.  The four conjuncts cover: the shared
`drugs_dict` aggregation used by `fetch_alternatives` and the standard path of
`filter_drugs`; the single-drug aggregation of `fetch_drug_by_name` (through
its full lookup); and the `has_preferred_alternative` special path, whose
hard-coded `non_preferred` coincides with the derived status because every
grouped row there is `non_preferred`.
-/
theorem C2_overall_status_invariant :
    (∀ (rows : List Row), ∀ d ∈ aggregateRows rows, statusInvariant d) ∧
    (∀ (scorer : String → String → Nat) (table : List Row) (name : String)
        (d : Drug), fetch_drug_by_name scorer table name = some d →
        statusInvariant d) ∧
    (∀ (table : List Row),
      ∀ d ∈ get_non_preferred_drugs_with_preferred_alternatives table,
        statusInvariant d) := by
  refine ⟨?_, ?_, ?_⟩
  · intro rows d hd
    simp only [aggregateRows, List.mem_map] at hd
    obtain ⟨p, _, rfl⟩ := hd
    exact statusInvariant_of_derive _ rfl
  · intro scorer table name d hd
    have hsingle : ∀ (first : Row) (rest : List Row),
        statusInvariant (aggregateSingle first rest) := by
      intro first rest
      exact statusInvariant_of_derive _ rfl
    unfold fetch_drug_by_name at hd
    cases hf : table.filter (fun r => ilike name r.drug_name) with
    | cons first rest =>
        rw [hf] at hd
        simp at hd
        rw [← hd]
        exact hsingle first rest
    | nil =>
        rw [hf] at hd
        simp only at hd
        cases hm : (fuzzy_match_drug_name scorer name (fetch_all_drug_names table) 70).1 with
        | none => rw [hm] at hd; simp at hd
        | some matchedName =>
            rw [hm] at hd
            by_cases hc : (fuzzy_match_drug_name scorer name (fetch_all_drug_names table) 70).2 < 70
            · simp [hc] at hd
            · simp only [hc, if_false] at hd
              cases hf2 : table.filter (fun r => ilike matchedName r.drug_name) with
              | nil => rw [hf2] at hd; simp at hd
              | cons first rest =>
                  rw [hf2] at hd
                  simp at hd
                  rw [← hd]
                  exact hsingle first rest
  · intro table d hd
    unfold get_non_preferred_drugs_with_preferred_alternatives at hd
    simp only [List.mem_map] at hd
    obtain ⟨nd, hnd, rfl⟩ := hd
    have hinv := groupRows_inv (fun s => s = "non_preferred") _ []
      (by
        intro r hr
        simp only [List.mem_filter] at hr
        have := hr.1
        simp only [List.mem_filter] at this
        exact (Bool.and_eq_true _ _ |>.mp this.2).1 |> decide_eq_true_eq.mp)
      (by intro nd h; simp at h) nd hnd
    obtain ⟨hname, hne, hall, _⟩ := hinv
    have hnp : ¬ ∃ p ∈ nd.2.statuses_by_category, p.2 = "preferred" := by
      rintro ⟨p, hp, he⟩
      have := hall p hp
      rw [this] at he
      exact absurd he (by decide)
    have hex : ∃ p ∈ nd.2.statuses_by_category, p.2 = "non_preferred" := by
      cases hsc : nd.2.statuses_by_category with
      | nil => exact absurd hsc hne
      | cons p t =>
          refine ⟨p, by simp [hsc], ?_⟩
          exact hall p (by simp [hsc])
    refine ⟨?_, ?_, ?_⟩
    · simp only
      constructor
      · intro h; exact absurd h (by decide)
      · intro h; exact absurd h hnp
    · intro _
      simp only
      constructor
      · intro _; exact hex
      · intro _; trivial
    · intro _ hnn
      exact absurd hex hnn

/-- A row used to exercise the duplicate-row behaviour of the aggregators. -/
def dupRow : Row :=
  { drug_name := "DrugA", category := some "cat1", drug_status := "preferred",
    hcpcs := none, manufacturer := none, pa_mnd_required := "no", notes := none }

/--
C8 counterexample: feeding the same `(drug_name, category)` row twice (as a
pagination boundary can) makes the aggregated `categories` sequence contain
`cat1` twice — the loop appends one entry per row and never dedupes — so the
claimed at-most-once property fails.  (`statuses_by_category` does stay
unique-keyed.)
-/
theorem C8_counterexample :
    (aggregateRows [dupRow, dupRow]).map (fun d => d.categories) =
        [[some "cat1", some "cat1"]] ∧
    (∃ d ∈ aggregateRows [dupRow, dupRow], ¬ d.categories.Nodup) := by
  exact ⟨by decide, by decide⟩

/--
C8 amended: within each aggregated LogicalDrug the `statuses_by_category`
mapping has unique category keys, but the `categories` sequence receives one
entry per encountered input row, so a row repeated across a pagination
boundary is double-counted there.  The first two conjuncts prove unique keys
for the grouped and single-drug aggregations; the last exhibits the per-row
append on the duplicated concrete input.
-/
theorem C8_statuses_unique_categories_per_row :
    (∀ (rows : List Row), ∀ d ∈ aggregateRows rows,
      (d.statuses_by_category.map (·.1)).Nodup) ∧
    (∀ (first : Row) (rest : List Row),
      ((aggregateSingle first rest).statuses_by_category.map (·.1)).Nodup) ∧
    (aggregateRows [dupRow, dupRow]).map
        (fun d => (d.categories, d.statuses_by_category)) =
      [([some "cat1", some "cat1"], [(some "cat1", "preferred")])] := by
  refine ⟨?_, ?_, by decide⟩
  · intro rows d hd
    simp only [aggregateRows, List.mem_map] at hd
    obtain ⟨p, hp, rfl⟩ := hd
    have := groupRows_inv (fun _ => True) rows []
      (by intro r _; trivial) (by intro nd h; simp at h) p hp
    exact this.2.2.2
  · intro first rest
    have : ∀ (rows : List Row) (m : List (Option String × String)),
        (m.map (·.1)).Nodup →
        ((rows.foldl (fun acc r => dset acc r.category r.drug_status) m).map
          (·.1)).Nodup := by
      intro rows
      induction rows with
      | nil => intro m h; simpa using h
      | cons r t ih =>
          intro m h
          simpa using ih (dset m r.category r.drug_status) (keys_nodup_dset h)
    simpa [aggregateSingle] using this (first :: rest) [] (by simp)

/--
C10: whenever the database-side approximate search yields no result surviving
the threshold, `suggest_corrections` returns `[]`: the client-side fallback
immediately unpacks the 2-tuple returned by `fuzzy_match_drug_name` into three
variables, which raises (second conjunct), and the surrounding handler turns
the error into the empty list — so the client-side correction path never
produces suggestions.
-/
theorem C10_client_fallback_never_suggests :
    (∀ (scorer : String → String → Nat)
        (extractFn : String → List String → List (String × Nat))
        (dbResults : List (String × ℚ)) (allNames : List String)
        (query : String) (threshold : ℚ),
      dbResults.filterMap (fun p =>
        if p.2 / 100 ≥ threshold then some (p.1, p.2 / 100) else none) = [] →
      suggest_corrections scorer extractFn dbResults allNames query threshold = []) ∧
    (∀ (scorer : String → String → Nat) (query : String) (allNames : List String),
      unpack3 (fuzzyMatchTuple scorer query allNames) =
        Except.error "ValueError: not enough values to unpack") := by
  constructor
  · intro scorer extractFn dbResults allNames query threshold h
    unfold suggest_corrections suggestCorrectionsBody
    by_cases hdb : dbResults = []
    · subst hdb
      simp [unpack3, fuzzyMatchTuple]
    · simp [hdb, h, unpack3, fuzzyMatchTuple]
  · intro scorer query allNames
    rfl

/-- C10 witness: the theorem applied at a concrete empty database result. -/
theorem C10_client_fallback_never_suggests_witness :
    suggest_corrections (fun _ _ => 0) (fun _ _ => []) [] ["Keytruda"] "Ketruda"
      (6 / 10) = [] :=
  C10_client_fallback_never_suggests.1 _ _ _ _ _ _ rfl

/-- A storage row used to exercise the lookup paths of `fetch_drug_by_name`. -/
def keytrudaRow : Row :=
  { drug_name := "Keytruda", category := some "Oncology",
    drug_status := "preferred", hcpcs := some "J9271",
    manufacturer := some "Merck", pa_mnd_required := "yes", notes := none }

/-- A one-drug table used to exercise the fuzzy-retry path of
`fetch_drug_by_name`. -/
def keytrudaTable : List Row := [keytrudaRow]

/--
C7 counterexample: looking up `"Keytruda™"` misses the exact `ILIKE` match
(first conjunct), resolves through the fuzzy retry, and returns the Keytruda
drug — but with *no* fuzzy-match provenance: the `_fuzzy_match`,
`_fuzzy_confidence` and `_original_query` keys claimed by C7 are never written
by `fetch_drug_by_name` (all three modelled fields are `none`).
-/
theorem C7_counterexample :
    keytrudaTable.filter (fun r => ilike "Keytruda™" r.drug_name) = [] ∧
    (fetch_drug_by_name (fun _ _ => 0) keytrudaTable "Keytruda™").map
        (fun d => (d.drug_name, d.fzMatch, d.fzConfidence, d.fzOriginalQuery)) =
      some ("Keytruda", none, none, none) := by
  exact ⟨by decide, by decide⟩

/--
C7 amended: `fetch_drug_by_name` first attempts the exact case-insensitive
(`ILIKE`) match and aggregates those rows when any exist; on a storage miss it
retries `fuzzy_match_drug_name` against the full catalog at threshold 70 and
re-queries on success; a fuzzy miss is a terminal `none` (empty result, no
error); it returns zero or one aggregated drug, and the returned drug never
carries fuzzy-match provenance fields.
-/
theorem C7_fetch_drug_by_name_behavior :
    (∀ (scorer : String → String → Nat) (table : List Row) (name : String)
        (first : Row) (rest : List Row),
      table.filter (fun r => ilike name r.drug_name) = first :: rest →
      fetch_drug_by_name scorer table name = some (aggregateSingle first rest)) ∧
    (∀ (scorer : String → String → Nat) (table : List Row) (name : String),
      table.filter (fun r => ilike name r.drug_name) = [] →
      (fuzzy_match_drug_name scorer name (fetch_all_drug_names table) 70).1 = none →
      fetch_drug_by_name scorer table name = none) ∧
    (∀ (scorer : String → String → Nat) (table : List Row) (name mn : String)
        (c : Nat),
      table.filter (fun r => ilike name r.drug_name) = [] →
      fuzzy_match_drug_name scorer name (fetch_all_drug_names table) 70 =
        (some mn, c) →
      70 ≤ c →
      fetch_drug_by_name scorer table name =
        (match table.filter (fun r => ilike mn r.drug_name) with
         | [] => none
         | first :: rest => some (aggregateSingle first rest))) ∧
    (∀ (scorer : String → String → Nat) (table : List Row) (name : String)
        (d : Drug),
      fetch_drug_by_name scorer table name = some d →
      d.fzMatch = none ∧ d.fzConfidence = none ∧ d.fzOriginalQuery = none) := by
  refine ⟨?_, ?_, ?_, ?_⟩
  · intro scorer table name first rest h
    unfold fetch_drug_by_name
    rw [h]
  · intro scorer table name h hm
    unfold fetch_drug_by_name
    rw [h]
    simp only
    rw [hm]
  · intro scorer table name mn c h hm hc
    unfold fetch_drug_by_name
    rw [h]
    simp only
    rw [hm]
    simp only
    rw [if_neg (by omega)]
  · intro scorer table name d hd
    have hsingle : ∀ (first : Row) (rest : List Row),
        (aggregateSingle first rest).fzMatch = none ∧
        (aggregateSingle first rest).fzConfidence = none ∧
        (aggregateSingle first rest).fzOriginalQuery = none := by
      intro first rest
      exact ⟨rfl, rfl, rfl⟩
    unfold fetch_drug_by_name at hd
    cases hf : table.filter (fun r => ilike name r.drug_name) with
    | cons first rest =>
        rw [hf] at hd
        simp at hd
        rw [← hd]
        exact hsingle first rest
    | nil =>
        rw [hf] at hd
        simp only at hd
        cases hm : (fuzzy_match_drug_name scorer name (fetch_all_drug_names table) 70).1 with
        | none => rw [hm] at hd; simp at hd
        | some matchedName =>
            rw [hm] at hd
            by_cases hc : (fuzzy_match_drug_name scorer name (fetch_all_drug_names table) 70).2 < 70
            · simp [hc] at hd
            · simp only [hc, if_false] at hd
              cases hf2 : table.filter (fun r => ilike matchedName r.drug_name) with
              | nil => rw [hf2] at hd; simp at hd
              | cons first rest =>
                  rw [hf2] at hd
                  simp at hd
                  rw [← hd]
                  exact hsingle first rest

/-- C2 witness: the invariant theorem applied to a concrete one-row input. -/
theorem C2_overall_status_invariant_witness :
    statusInvariant
      { drug_name := "DrugA", hcpcs := none, manufacturer := none,
        pa_mnd_required := "no", notes := none, categories := [some "cat1"],
        statuses_by_category := [(some "cat1", "preferred")],
        drug_status := "preferred" } :=
  C2_overall_status_invariant.1 [dupRow] _ (by decide)

/-- C7 witness: the lookup theorem applied to a concrete exact-match input. -/
theorem C7_fetch_drug_by_name_behavior_witness :
    fetch_drug_by_name (fun _ _ => 0) keytrudaTable "keytruda" =
      some (aggregateSingle keytrudaRow []) :=
  C7_fetch_drug_by_name_behavior.1 _ keytrudaTable "keytruda" keytrudaRow []
    (by decide)

/-- C8 witness: the unique-keys theorem applied to the duplicated-row input. -/
theorem C8_statuses_unique_categories_per_row_witness :
    (({ drug_name := "DrugA", hcpcs := none, manufacturer := none,
        pa_mnd_required := "no", notes := none,
        categories := [some "cat1", some "cat1"],
        statuses_by_category := [(some "cat1", "preferred")],
        drug_status := "preferred" } : Drug).statuses_by_category.map (·.1)).Nodup :=
  C8_statuses_unique_categories_per_row.1 [dupRow, dupRow] _ (by decide)

/-! ### Lemmas about the normalized-name dict and `extractOne` -/

/-- Looking up a normalized form in the dict build returns the *last* input
name bearing that form (later comprehension entries overwrite earlier ones). -/
theorem dget_normDict_go (names : List String) :
    ∀ (m0 : List (String × String)) (nq : String),
      dget (names.foldl (fun m name => dset m (normalize_drug_name name) name) m0) nq =
        match (names.filter (fun c => normalize_drug_name c = nq)).getLast? with
        | some last => some last
        | none => dget m0 nq := by
  induction names with
  | nil => intro m0 nq; rfl
  | cons c cs ih =>
    intro m0 nq
    by_cases hc : normalize_drug_name c = nq
    · have hfc : (c :: cs).filter (fun c => normalize_drug_name c = nq) =
          c :: cs.filter (fun c => normalize_drug_name c = nq) := by
        simp [List.filter_cons, hc]
      rw [List.foldl_cons, ih, hfc]
      cases hfcs : (cs.filter (fun c => normalize_drug_name c = nq)).getLast? with
      | some l =>
          cases hcs : cs.filter (fun c => normalize_drug_name c = nq) with
          | nil => rw [hcs] at hfcs; simp at hfcs
          | cons a t =>
              rw [hcs] at hfcs
              rw [List.getLast?_cons_cons, hfcs]
      | none =>
          have h0 : cs.filter (fun c => normalize_drug_name c = nq) = [] :=
            List.getLast?_eq_none_iff.mp hfcs
          rw [h0]
          have : ([c] : List String).getLast? = some c := rfl
          rw [this, hc, dget_dset_self]
    · have hfc : (c :: cs).filter (fun c => normalize_drug_name c = nq) =
          cs.filter (fun c => normalize_drug_name c = nq) := by
        simp [List.filter_cons, hc]
      rw [List.foldl_cons, ih, hfc]
      cases hfcs : (cs.filter (fun c => normalize_drug_name c = nq)).getLast? with
      | some l => rfl
      | none => simp only [dget_dset_ne _ _ _ _ hc]

/-- `dget_normDict_go` at the empty initial dict. -/
theorem dget_normDict (names : List String) (nq : String) :
    dget (normDict names) nq =
      (names.filter (fun c => normalize_drug_name c = nq)).getLast? := by
  rw [normDict, dget_normDict_go]
  cases (names.filter (fun c => normalize_drug_name c = nq)).getLast? <;> rfl

/-- The running-best fold of `extractOne`: either nothing ever beat the seed,
or the result is the first element that reached the final maximum — everything
before it scores strictly less, everything after at most equal. -/
theorem extractOne_fold_argmax (scorer : String → String → Nat) (q : String) :
    ∀ (l : List String) (b : String),
      (l.foldl (fun best cand =>
          if scorer q cand > best.2 then (cand, scorer q cand) else best)
        (b, scorer q b) = (b, scorer q b) ∧ ∀ x ∈ l, scorer q x ≤ scorer q b) ∨
      (∃ pre x post, l = pre ++ x :: post ∧
        l.foldl (fun best cand =>
            if scorer q cand > best.2 then (cand, scorer q cand) else best)
          (b, scorer q b) = (x, scorer q x) ∧
        scorer q b < scorer q x ∧
        (∀ y ∈ pre, scorer q y < scorer q x) ∧
        (∀ y ∈ post, scorer q y ≤ scorer q x)) := by
  intro l
  induction l with
  | nil => intro b; left; exact ⟨rfl, by simp⟩
  | cons c cs ih =>
    intro b
    by_cases h : scorer q c > scorer q b
    · have hstep : (if scorer q c > (b, scorer q b).2 then (c, scorer q c)
          else (b, scorer q b)) = (c, scorer q c) := by simp [h]
      rcases ih c with ⟨heq, hall⟩ | ⟨pre, x, post, hsplit, heq, hbx, hpre, hpost⟩
      · right
        refine ⟨[], c, cs, by simp, ?_, h, by simp, hall⟩
        simpa [hstep] using heq
      · right
        refine ⟨c :: pre, x, post, by simp [hsplit], ?_, lt_trans h hbx, ?_, hpost⟩
        · simpa [hstep] using heq
        · intro y hy
          rcases List.mem_cons.mp hy with rfl | hy
          · exact hbx
          · exact hpre y hy
    · have hcb : scorer q c ≤ scorer q b := le_of_not_lt h
      have hstep : (if scorer q c > (b, scorer q b).2 then (c, scorer q c)
          else (b, scorer q b)) = (b, scorer q b) := by simp [h]
      rcases ih b with ⟨heq, hall⟩ | ⟨pre, x, post, hsplit, heq, hbx, hpre, hpost⟩
      · left
        constructor
        · simpa [hstep] using heq
        · intro x hx
          rcases List.mem_cons.mp hx with rfl | hx
          · exact hcb
          · exact hall x hx
      · right
        refine ⟨c :: pre, x, post, by simp [hsplit], ?_, hbx, ?_, hpost⟩
        · simpa [hstep] using heq
        · intro y hy
          rcases List.mem_cons.mp hy with rfl | hy
          · exact lt_of_le_of_lt hcb hbx
          · exact hpre y hy

/-- Characterization of `extractOne`: the winner is the earliest key reaching
the maximal score. -/
theorem extractOne_spec (scorer : String → String → Nat) (q : String)
    (keys : List String) (kb : String) (sb : Nat)
    (h : extractOne scorer q keys = some (kb, sb)) :
    sb = scorer q kb ∧
    ∃ pre post, keys = pre ++ kb :: post ∧
      (∀ y ∈ pre, scorer q y < sb) ∧ (∀ y ∈ post, scorer q y ≤ sb) := by
  cases keys with
  | nil => simp [extractOne] at h
  | cons k ks =>
    simp only [extractOne, Option.some.injEq] at h
    rcases extractOne_fold_argmax scorer q ks k with ⟨heq, hall⟩ |
        ⟨pre, x, post, hsplit, heq, hbx, hpre, hpost⟩
    · rw [heq, Prod.mk.injEq] at h
      obtain ⟨h1, h2⟩ := h
      subst h1; subst h2
      exact ⟨rfl, [], ks, rfl, by simp, hall⟩
    · rw [heq, Prod.mk.injEq] at h
      obtain ⟨h1, h2⟩ := h
      subst h1; subst h2
      refine ⟨rfl, k :: pre, post, by simp [hsplit], ?_, hpost⟩
      intro y hy
      rcases List.mem_cons.mp hy with rfl | hy
      · exact hbx
      · exact hpre y hy

/--
C3 counterexample: for the query `"keytruda"` and candidates
`["Keytruda™", "KEYTRUDA"]`, both candidates normalize to the query, but
`fuzzy_match_drug_name` returns the candidate at the *latest* position
(`"KEYTRUDA"`), not the claimed earliest one: the dict comprehension lets later
entries overwrite earlier ones.
-/
theorem C3_counterexample :
    fuzzy_match_drug_name (fun _ _ => 0) "keytruda" ["Keytruda™", "KEYTRUDA"] 70 =
        (some "KEYTRUDA", 100) ∧
    normalize_drug_name "Keytruda™" = normalize_drug_name "keytruda" ∧
    fuzzy_match_drug_name (fun _ _ => 0) "keytruda" ["Keytruda™", "KEYTRUDA"] 70 ≠
        (some "Keytruda™", 100) := by
  exact ⟨by decide, by decide, by decide⟩

/--
C3 amended: for a non-empty query, (a) whenever the normalized query equals
some normalized candidate, `fuzzy_match_drug_name` returns confidence 100 with
the candidate at the *latest* input position among those sharing that
normalized form; (b) with no exact normalized hit, a successful match clears
the threshold, its normalized key is the earliest-first-occurring key of the
dict to reach the maximal scorer value (earlier keys score strictly less,
later ones at most equal), and the returned spelling is again the latest
candidate bearing that key.
-/
theorem C3_fuzzy_match_tie_break :
    (∀ (scorer : String → String → Nat) (q : String) (cands : List String)
        (thr : Nat),
      q ≠ "" →
      (∃ c ∈ cands, normalize_drug_name c = normalize_drug_name q) →
      fuzzy_match_drug_name scorer q cands thr =
        ((cands.filter
            (fun c => normalize_drug_name c = normalize_drug_name q)).getLast?,
          100)) ∧
    (∀ (scorer : String → String → Nat) (q : String) (cands : List String)
        (thr : Nat) (name : String) (s : Nat),
      q ≠ "" →
      (∀ c ∈ cands, normalize_drug_name c ≠ normalize_drug_name q) →
      fuzzy_match_drug_name scorer q cands thr = (some name, s) →
      thr ≤ s ∧
      ∃ pre kb post,
        (normDict cands).map (·.1) = pre ++ kb :: post ∧
        s = scorer (normalize_drug_name q) kb ∧
        (∀ y ∈ pre, scorer (normalize_drug_name q) y < s) ∧
        (∀ y ∈ post, scorer (normalize_drug_name q) y ≤ s) ∧
        (cands.filter (fun c => normalize_drug_name c = kb)).getLast? =
          some name) := by
  constructor
  · intro scorer q cands thr hq hex
    obtain ⟨c0, hc0, hnc0⟩ := hex
    have hne : cands ≠ [] := by
      intro e; subst e; simp at hc0
    unfold fuzzy_match_drug_name
    rw [if_neg (by simp [hq, hne])]
    simp only [dget_normDict]
    cases hl : (cands.filter
        (fun c => normalize_drug_name c = normalize_drug_name q)).getLast? with
    | none =>
        have hnil := List.getLast?_eq_none_iff.mp hl
        have : c0 ∈ cands.filter
            (fun c => normalize_drug_name c = normalize_drug_name q) :=
          List.mem_filter.mpr ⟨hc0, by simp [hnc0]⟩
        rw [hnil] at this
        simp at this
    | some l => rfl
  · intro scorer q cands thr name s hq hno hres
    have hne : cands ≠ [] := by
      intro e; subst e
      rw [fuzzy_match_nil] at hres
      simp at hres
    unfold fuzzy_match_drug_name at hres
    rw [if_neg (by simp [hq, hne])] at hres
    simp only [dget_normDict] at hres
    have hfil : cands.filter
        (fun c => normalize_drug_name c = normalize_drug_name q) = [] := by
      rw [List.filter_eq_nil_iff]
      intro c hc
      simp [hno c hc]
    rw [hfil, List.getLast?_nil] at hres
    cases he : extractOne scorer (normalize_drug_name q)
        ((normDict cands).map (·.1)) with
    | none => rw [he] at hres; simp at hres
    | some p =>
        obtain ⟨kb, sc⟩ := p
        rw [he] at hres
        dsimp only at hres
        by_cases hth : sc ≥ thr
        · rw [if_pos hth] at hres
          have h1 : (cands.filter
              (fun c => normalize_drug_name c = kb)).getLast? = some name := by
            have := congrArg Prod.fst hres
            simpa using this
          have h2 : sc = s := by
            have := congrArg Prod.snd hres
            simpa using this
          subst h2
          obtain ⟨hsb, pre, post, hsplit, hpre, hpost⟩ :=
            extractOne_spec scorer (normalize_drug_name q) _ kb sc he
          exact ⟨hth, pre, kb, post, hsplit, hsb, hpre, hpost, h1⟩
        · rw [if_neg hth] at hres
          simp at hres

/-- C3 witness: part (a) of the tie-break theorem applied at a concrete
duplicated-normalized-form input. -/
theorem C3_fuzzy_match_tie_break_witness :
    fuzzy_match_drug_name (fun _ _ => 0) "keytruda" ["Keytruda™", "KEYTRUDA"] 70 =
      ((["Keytruda™", "KEYTRUDA"].filter
          (fun c => normalize_drug_name c = normalize_drug_name "keytruda")).getLast?,
        100) :=
  C3_fuzzy_match_tie_break.1 _ "keytruda" _ 70 (by decide)
    ⟨"Keytruda™", by decide, by decide⟩

/-! ### Filter-validation and merge lemmas (C6) -/

theorem dget_copyIf_ne (src dst : Filters) (k k' : String) (ok : JVal → Bool)
    (h : k ≠ k') : dget (copyIf src dst k ok) k' = dget dst k' := by
  unfold copyIf
  cases dget src k with
  | none => rfl
  | some v =>
      by_cases hok : ok v
      · simp [hok, dget_dset_ne _ _ _ _ h]
      · simp [hok]

theorem dget_copyIf_self (src dst : Filters) (k : String) (ok : JVal → Bool) :
    dget (copyIf src dst k ok) k =
      match dget src k with
      | some v => if ok v then some v else dget dst k
      | none => dget dst k := by
  unfold copyIf
  cases dget src k with
  | none => rfl
  | some v =>
      by_cases hok : ok v
      · simp [hok, dget_dset_self]
      · simp [hok]

theorem dget_llmFixKey_ne (f : Filters) (k k' : String) (allowed : List JVal)
    (h : k ≠ k') : dget (llmFixKey f k allowed) k' = dget f k' := by
  unfold llmFixKey
  cases dget f k with
  | none => rfl
  | some v =>
      by_cases hv : v ∈ allowed
      · simp [hv]
      · simp [hv, dget_dset_ne _ _ _ _ h]

theorem dget_llmFixKey_self (f : Filters) (k : String) (allowed : List JVal) :
    dget (llmFixKey f k allowed) k =
      match dget f k with
      | some v => if v ∈ allowed then some v else some JVal.null
      | none => none := by
  unfold llmFixKey
  cases hv : dget f k with
  | none => simpa using hv
  | some v =>
      by_cases hm : v ∈ allowed
      · simp [hm, hv]
      · simp [hm, dget_dset_self]

theorem dget_dupdate_none {a b : Filters} {k : String} (h : dget b k = none) :
    dget (dupdate a b) k = dget a k := by
  induction b generalizing a with
  | nil => rfl
  | cons p bs ih =>
    obtain ⟨k', v'⟩ := p
    by_cases hk : k' = k
    · subst hk; simp [dget] at h
    · simp [dget, hk] at h
      unfold dupdate at ih ⊢
      simp only [List.foldl_cons]
      rw [ih h, dget_dset_ne _ _ _ _ hk]

/--
C6 counterexample: the full fallback pipeline stores an explicit null.  The
rule-based parse of `"list all drugs"` yields empty validated filters; the LLM
response carries `drug_status = "sometimes_preferred"`, which
`extract_intent_with_llm` *replaces with null* instead of dropping; the merge
`parsed_intent['filters'].update(llm_intent['filters'])` then stores that null
in the intent that reaches query execution — contradicting "dropped entirely
rather than stored".
-/
theorem C6_counterexample :
    dget (mergeLlmIntent
        { query_type := "list_filter", confidence := 85, drug_name := none,
          drug_confidence := 0,
          filters := validate_filters (extract_filters "list all drugs"),
          method := "rule_based" }
        (extract_intent_with_llm (some
          { query_type := .str "list_filter", drug_name := .null,
            filters := [("drug_status", .str "sometimes_preferred")] }))).filters
      "drug_status" = some JVal.null := by
  decide

/--
C6 amended: rule-based filters reaching execution are whitelisted —
`validate_filters` stores only recognized keys, and only valid values for the
two enum keys (conjuncts 1-3).  But filters contributed by the LLM fallback are
*not* dropped when unrecognized: `extract_intent_with_llm` replaces an invalid
`drug_status`/`pa_mnd_required` with a stored null and keeps the key
(conjuncts 4-6), and the merge copies every LLM binding over the rule-based
dict, leaving keys absent from the LLM filters untouched (conjunct 7).  So a
stored null, treated as "no constraint" by the truthiness-based readers, can
reach execution alongside key absence.
-/
theorem C6_filter_validation :
    (∀ (f : Filters) (v : JVal),
      dget (validate_filters f) "drug_status" = some v → okStatus v = true) ∧
    (∀ (f : Filters) (v : JVal),
      dget (validate_filters f) "pa_mnd_required" = some v → okPaMnd v = true) ∧
    (∀ (f : Filters) (k : String),
      k ∉ ["drug_status", "pa_mnd_required", "category", "hcpcs",
        "manufacturer", "has_preferred_alternative"] →
      dget (validate_filters f) k = none) ∧
    (∀ (f : Filters) (v : JVal),
      dget (llmValidateFilters f) "drug_status" = some v →
      v = .str "preferred" ∨ v = .str "non_preferred" ∨ v = .null) ∧
    (∀ (f : Filters) (v : JVal),
      dget (llmValidateFilters f) "pa_mnd_required" = some v →
      v = .str "yes" ∨ v = .str "no" ∨ v = .null) ∧
    (∀ (f : Filters) (v : JVal),
      dget f "drug_status" = some v →
      dget (llmValidateFilters f) "drug_status" ≠ none) ∧
    (∀ (a b : Filters) (k : String),
      dget b k = none → dget (dupdate a b) k = dget a k) := by
  refine ⟨?_, ?_, ?_, ?_, ?_, ?_, fun a b k h => dget_dupdate_none h⟩
  · intro f v h
    unfold validate_filters at h
    rw [dget_copyIf_ne _ _ _ _ _ (by decide), dget_copyIf_ne _ _ _ _ _ (by decide),
      dget_copyIf_ne _ _ _ _ _ (by decide), dget_copyIf_ne _ _ _ _ _ (by decide),
      dget_copyIf_ne _ _ _ _ _ (by decide), dget_copyIf_self] at h
    cases hs : dget f "drug_status" with
    | none => rw [hs] at h; simp [dget] at h
    | some w =>
        rw [hs] at h
        dsimp only at h
        by_cases hok : okStatus w
        · rw [if_pos hok] at h
          cases h; exact hok
        · rw [if_neg hok] at h; simp [dget] at h
  · intro f v h
    unfold validate_filters at h
    rw [dget_copyIf_ne _ _ _ _ _ (by decide), dget_copyIf_ne _ _ _ _ _ (by decide),
      dget_copyIf_ne _ _ _ _ _ (by decide), dget_copyIf_ne _ _ _ _ _ (by decide),
      dget_copyIf_self] at h
    cases hs : dget f "pa_mnd_required" with
    | none =>
        rw [hs] at h
        dsimp only at h
        rw [dget_copyIf_ne _ _ _ _ _ (by decide)] at h
        simp [dget] at h
    | some w =>
        rw [hs] at h
        dsimp only at h
        by_cases hok : okPaMnd w
        · rw [if_pos hok] at h
          cases h; exact hok
        · rw [if_neg hok] at h
          rw [dget_copyIf_ne _ _ _ _ _ (by decide)] at h
          simp [dget] at h
  · intro f k hk
    simp only [List.mem_cons, List.not_mem_nil, or_false] at hk
    push_neg at hk
    obtain ⟨h1, h2, h3, h4, h5, h6⟩ := hk
    unfold validate_filters
    rw [dget_copyIf_ne _ _ _ _ _ (Ne.symm h6), dget_copyIf_ne _ _ _ _ _ (Ne.symm h5),
      dget_copyIf_ne _ _ _ _ _ (Ne.symm h4), dget_copyIf_ne _ _ _ _ _ (Ne.symm h3),
      dget_copyIf_ne _ _ _ _ _ (Ne.symm h2), dget_copyIf_ne _ _ _ _ _ (Ne.symm h1)]
    rfl
  · intro f v h
    unfold llmValidateFilters at h
    rw [dget_llmFixKey_ne _ _ _ _ (by decide), dget_llmFixKey_self] at h
    cases hs : dget f "drug_status" with
    | none => rw [hs] at h; cases h
    | some w =>
        rw [hs] at h
        dsimp only at h
        by_cases hok : w ∈ ([.str "preferred", .str "non_preferred", .null] : List JVal)
        · rw [if_pos hok] at h
          cases h
          simpa using hok
        · rw [if_neg hok] at h
          cases h
          right; right; rfl
  · intro f v h
    unfold llmValidateFilters at h
    rw [dget_llmFixKey_self] at h
    cases hs : dget (llmFixKey f "drug_status"
        [.str "preferred", .str "non_preferred", .null]) "pa_mnd_required" with
    | none => rw [hs] at h; cases h
    | some w =>
        rw [hs] at h
        dsimp only at h
        by_cases hok : w ∈ ([.str "yes", .str "no", .null] : List JVal)
        · rw [if_pos hok] at h
          cases h
          simpa using hok
        · rw [if_neg hok] at h
          cases h
          right; right; rfl
  · intro f v h hnone
    unfold llmValidateFilters at hnone
    rw [dget_llmFixKey_ne _ _ _ _ (by decide), dget_llmFixKey_self, h] at hnone
    dsimp only at hnone
    by_cases hok : v ∈ ([.str "preferred", .str "non_preferred", .null] : List JVal)
    · rw [if_pos hok] at hnone; cases hnone
    · rw [if_neg hok] at hnone; cases hnone

/-- C6 witness: the whitelist conjunct applied at a concrete filter dict. -/
theorem C6_filter_validation_witness : okStatus (JVal.str "preferred") = true :=
  C6_filter_validation.1 [("drug_status", JVal.str "preferred")]
    (JVal.str "preferred") (by decide)

/-! ### Grouping-order lemmas (C9) -/

theorem keys_addRow (m : List (String × Drug)) (r : Row) :
    (addRowToGroups m r).map (·.1) =
      if r.drug_name ∈ m.map (·.1) then m.map (·.1)
      else m.map (·.1) ++ [r.drug_name] := by
  unfold addRowToGroups
  by_cases h : r.drug_name ∈ m.map (·.1)
  · rw [if_pos h]
    exact keys_dset_mem _ h
  · rw [if_neg h]
    exact keys_dset_not_mem _ h

theorem mem_keys_groupRows_go :
    ∀ (rows : List Row) (m : List (String × Drug)) (n : String),
      n ∈ (rows.foldl addRowToGroups m).map (·.1) ↔
        n ∈ m.map (·.1) ∨ ∃ r ∈ rows, r.drug_name = n := by
  intro rows
  induction rows with
  | nil => intro m n; simp
  | cons r t ih =>
    intro m n
    rw [List.foldl_cons, ih]
    rw [keys_addRow]
    by_cases h : r.drug_name ∈ m.map (·.1)
    · rw [if_pos h]
      constructor
      · rintro (hm | ⟨r', hr', rfl⟩)
        · exact Or.inl hm
        · exact Or.inr ⟨r', by simp [hr']⟩
      · rintro (hm | ⟨r', hr', rfl⟩)
        · exact Or.inl hm
        · rcases List.mem_cons.mp hr' with rfl | hr'
          · exact Or.inl h
          · exact Or.inr ⟨r', hr', rfl⟩
    · rw [if_neg h]
      constructor
      · rintro (hm | ⟨r', hr', rfl⟩)
        · rcases List.mem_append.mp hm with hm | hm
          · exact Or.inl hm
          · simp at hm
            exact Or.inr ⟨r, by simp [hm]⟩
        · exact Or.inr ⟨r', by simp [hr']⟩
      · rintro (hm | ⟨r', hr', rfl⟩)
        · exact Or.inl (List.mem_append.mpr (Or.inl hm))
        · rcases List.mem_cons.mp hr' with rfl | hr'
          · exact Or.inl (List.mem_append.mpr (Or.inr (by simp)))
          · exact Or.inr ⟨r', hr', rfl⟩

theorem keys_groupRows_sorted :
    ∀ (rows : List Row) (m : List (String × Drug)),
      List.Pairwise (fun r1 r2 : Row => nameLe r1.drug_name r2.drug_name) rows →
      List.Pairwise nameLe (m.map (·.1)) →
      (∀ k ∈ m.map (·.1), ∀ r ∈ rows, nameLe k r.drug_name) →
      List.Pairwise nameLe ((rows.foldl addRowToGroups m).map (·.1)) := by
  intro rows
  induction rows with
  | nil => intro m _ hm _; exact hm
  | cons r t ih =>
    intro m hrows hm hfwd
    obtain ⟨hr, ht⟩ := List.pairwise_cons.mp hrows
    rw [List.foldl_cons]
    apply ih (addRowToGroups m r) ht
    · rw [keys_addRow]
      by_cases h : r.drug_name ∈ m.map (·.1)
      · rw [if_pos h]; exact hm
      · rw [if_neg h]
        rw [List.pairwise_append]
        refine ⟨hm, by simp, ?_⟩
        intro a ha b hb
        simp at hb
        subst hb
        exact hfwd a ha r (by simp)
    · intro k hk r' hr'
      rw [keys_addRow] at hk
      by_cases h : r.drug_name ∈ m.map (·.1)
      · rw [if_pos h] at hk
        exact hfwd k hk r' (by simp [hr'])
      · rw [if_neg h] at hk
        rcases List.mem_append.mp hk with hk | hk
        · exact hfwd k hk r' (by simp [hr'])
        · simp at hk
          subst hk
          exact hr r' hr'

theorem mem_keys_groupRows (rows : List Row) (n : String) :
    n ∈ (groupRows rows).map (·.1) ↔ ∃ r ∈ rows, r.drug_name = n := by
  rw [groupRows, mem_keys_groupRows_go]
  simp

/-- The drug names of an aggregated result are the group keys. -/
theorem aggregateRows_names (rows : List Row) :
    (aggregateRows rows).map (·.drug_name) = (groupRows rows).map (·.1) := by
  have hinv := groupRows_inv (fun _ => True) rows []
    (by intro r _; trivial) (by intro nd h; simp at h)
  unfold aggregateRows
  rw [List.map_map]
  apply List.map_congr_left
  intro p hp
  exact (hinv p hp).1

/-- Non-preferred rows of the C9 counterexample table arrive in descending
name order; the preferred row makes `c1` a category with a preferred drug. -/
def unsortedTable : List Row :=
  [{ drug_name := "Bdrug", category := some "c1", drug_status := "non_preferred",
     hcpcs := none, manufacturer := none, pa_mnd_required := "no", notes := none },
   { drug_name := "Adrug", category := some "c1", drug_status := "non_preferred",
     hcpcs := none, manufacturer := none, pa_mnd_required := "no", notes := none },
   { drug_name := "Pdrug", category := some "c1", drug_status := "preferred",
     hcpcs := none, manufacturer := none, pa_mnd_required := "no", notes := none }]

/--
C9 counterexample: the `has_preferred_alternative=true` special case issues no
`ORDER BY` and aggregates in row-encounter order, so the storage order
`["Bdrug", "Adrug"]` comes back unsorted, refuting "Every list_filter
execution returns its aggregated LogicalDrugs sorted by drug_name ascending".
-/
theorem C9_counterexample :
    (filter_drugs unsortedTable
        [("has_preferred_alternative", JVal.boolv true)]).map (·.drug_name) =
      ["Bdrug", "Adrug"] ∧
    ¬ List.Pairwise nameLe
        ((filter_drugs unsortedTable
          [("has_preferred_alternative", JVal.boolv true)]).map (·.drug_name)) := by
  refine ⟨by decide, ?_⟩
  intro h
  rw [(by decide :
      (filter_drugs unsortedTable
        [("has_preferred_alternative", JVal.boolv true)]).map (·.drug_name) =
      ["Bdrug", "Adrug"])] at h
  have := (List.pairwise_cons.mp h).1 "Adrug" (by simp)
  exact absurd this (by decide)

/--
C9 amended: the standard `list_filter` path returns its aggregated drugs
sorted by `drug_name` ascending (the store orders rows by name and
first-occurrence grouping preserves that), and the
`has_preferred_alternative=true` special case computes exactly the
non-preferred drugs whose category contains at least one preferred drug — but
in storage-row encounter order, not name-sorted.
-/
theorem C9_list_filter_order :
    (∀ (table : List Row) (f : Filters),
      dgetTruthy f "has_preferred_alternative" = false →
      List.Pairwise nameLe ((filter_drugs table f).map (·.drug_name))) ∧
    (∀ (table : List Row) (f : Filters),
      dgetTruthy f "has_preferred_alternative" = true →
      ∀ n : String,
        n ∈ (filter_drugs table f).map (·.drug_name) ↔
          ∃ r ∈ table, r.drug_name = n ∧ r.drug_status = "non_preferred" ∧
            ∃ c, r.category = some c ∧ c ∈ categoriesWithPreferred table) := by
  constructor
  · intro table f hf
    unfold filter_drugs
    rw [if_neg (by simp [hf])]
    dsimp only
    rw [aggregateRows_names]
    apply keys_groupRows_sorted _ [] ?_ (by simp) (by intro k hk; simp at hk)
    haveI : IsTotal Row (fun r1 r2 : Row => nameLe r1.drug_name r2.drug_name) :=
      ⟨fun a b => strLe_total _ _⟩
    haveI : IsTrans Row (fun r1 r2 : Row => nameLe r1.drug_name r2.drug_name) :=
      ⟨fun a b c => strLe_trans _ _ _⟩
    exact List.sorted_insertionSort _ _
  · intro table f hf n
    unfold filter_drugs
    rw [if_pos (by simp [hf])]
    unfold get_non_preferred_drugs_with_preferred_alternatives
    dsimp only
    have hinv := groupRows_inv (fun _ => True)
      ((table.filter (fun r =>
          r.drug_status = "non_preferred" && r.category ≠ none)).filter
        (fun r =>
          match r.category with
          | some c => c ∈ categoriesWithPreferred table
          | none => false)) []
      (by intro r _; trivial) (by intro nd h; simp at h)
    rw [List.map_map]
    have hnames : ((groupRows
        ((table.filter (fun r =>
            r.drug_status = "non_preferred" && r.category ≠ none)).filter
          (fun r =>
            match r.category with
            | some c => c ∈ categoriesWithPreferred table
            | none => false))).map
        ((fun d => d.drug_name) ∘
          (fun p => ({ p.2 with drug_status := "non_preferred" } : Drug)))) =
        (groupRows
          ((table.filter (fun r =>
              r.drug_status = "non_preferred" && r.category ≠ none)).filter
            (fun r =>
              match r.category with
              | some c => c ∈ categoriesWithPreferred table
              | none => false))).map (·.1) := by
      apply List.map_congr_left
      intro p hp
      exact (hinv p hp).1
    rw [hnames, mem_keys_groupRows]
    constructor
    · rintro ⟨r, hr, rfl⟩
      rw [List.mem_filter] at hr
      obtain ⟨hr1, hr2⟩ := hr
      rw [List.mem_filter] at hr1
      obtain ⟨hrt, hrb⟩ := hr1
      have hstat : r.drug_status = "non_preferred" :=
        by simpa using (Bool.and_eq_true _ _ |>.mp hrb).1
      cases hc : r.category with
      | none => rw [hc] at hr2; simp at hr2
      | some c =>
          rw [hc] at hr2
          refine ⟨r, hrt, rfl, hstat, c, hc, by simpa using hr2⟩
    · rintro ⟨r, hrt, rfl, hstat, c, hc, hcp⟩
      refine ⟨r, ?_, rfl⟩
      rw [List.mem_filter, List.mem_filter]
      refine ⟨⟨hrt, ?_⟩, ?_⟩
      · simp [hstat, hc]
      · rw [hc]
        simpa using hcp

/-- C9 witness: the sortedness conjunct applied at a concrete table. -/
theorem C9_list_filter_order_witness :
    List.Pairwise nameLe ((filter_drugs unsortedTable []).map (·.drug_name)) :=
  C9_list_filter_order.1 unsortedTable [] (by decide)

end DrugBot
